import Mathlib

/-!
# pgmeta: verification of the extraction/export pipeline

A shallow embedding of the pgmeta PostgreSQL schema-extraction tool:

* `internal/metadata/db/db.go` — `FetchObjectDefinition`,
  `FetchObjectsDefinitionsConcurrently`, `QueryObjects`, `GetAllSchemas`,
  `quoteIdentifierIfNeeded`;
* `internal/metadata/export/export.go` — `ExportObjects` (the
  `continueOnError` variant), `exportTableObjects`, `exportStandaloneObjects`;
* `cmd/pgmeta/main.go` — `runExport`;
* `internal/config/connection.go` — `AddConnection`, `DeleteConnection`,
  `SetDefaultConnection`.

The database is modelled as an oracle: discovery queries return rows, the
per-object definition query returns a single nullable text column.  The
filesystem is modelled as a trace of operations (`mkdir -p` and file writes);
writes are assumed to succeed, so the theorems speak about which operations a
run issues.  Goroutine pools write disjoint slots (fetch) or append to a task
list consumed by workers (export); both are linearized deterministically:
the fetch loop in index order, Go map iteration in first-occurrence order.
Claims proved below are insensitive to these orders (they are stated up to
permutation or membership).
-/

namespace Pgmeta

/-- Equality on `Except` outcomes is decidable componentwise (used to
evaluate concrete runs). -/
instance {e a : Type _} [DecidableEq e] [DecidableEq a] : DecidableEq (Except e a) := fun x y =>
  match x, y with
  | .error e1, .error e2 =>
    if h : e1 = e2 then isTrue (by rw [h]) else isFalse (fun hc => by cases hc; exact h rfl)
  | .ok a1, .ok a2 =>
    if h : a1 = a2 then isTrue (by rw [h]) else isFalse (fun hc => by cases hc; exact h rfl)
  | .error _, .ok _ => isFalse (fun hc => by cases hc)
  | .ok _, .error _ => isFalse (fun hc => by cases hc)

/-! ## Data model (`internal/metadata/types/types.go`)

`ObjectType` in Go is a string type; we keep it as `String` so that the
exhaustive-but-open `switch` statements of the source translate directly. -/

/-- `types.DBObject`: one database object.  Field names follow the Go struct;
Go zero values are the empty string. -/
structure DBObject where
  type : String
  schema : String
  name : String
  definition : String
  tableName : String
deriving Repr, DecidableEq, Inhabited

/-- `types.IsValidType`: membership in the closed enumeration. -/
def IsValidType (t : String) : Bool :=
  t == "table" || t == "view" || t == "function" || t == "trigger" ||
  t == "index" || t == "constraint" || t == "sequence" ||
  t == "materialized_view" || t == "policy" || t == "extension" ||
  t == "procedure" || t == "publication" || t == "subscription" ||
  t == "rule" || t == "aggregate"

/-- `types.ContainsAny`: an empty type filter means "all types". -/
def ContainsAny (slice : List String) (elements : List String) : Bool :=
  slice.isEmpty || slice.any (fun s => elements.contains s)

/-! ## The definition-fetch oracle (`db.go`, `FetchObjectDefinition`)

Each supported type builds one SQL query returning a single nullable text
column, executed with `QueryRowContext(...).Scan(&definition)`.  The oracle
abstracts the database's answer to that query for a given object. -/

/-- Outcome of the single-row definition query for one object:
`sql.ErrNoRows`, a driver error, a NULL value, or the definition text. -/
inductive QueryRowResult where
  | noRows
  | dbError (msg : String)
  | nullValue
  | value (s : String)
deriving Repr, DecidableEq

/-- The database side of `FetchObjectDefinition`: what the per-type DDL
query answers for a given object. -/
def DbOracle : Type := DBObject → QueryRowResult

/-- The object types with a DDL recipe in the `switch` of
`FetchObjectDefinition` (`db.go:458-652`).  `constraint` is absent: its
definition is collected at discovery time, so a constraint reaching the
`switch` (empty definition) falls into the `default` branch. -/
def fetchSupported (t : String) : Bool :=
  t == "table" || t == "view" || t == "function" || t == "trigger" ||
  t == "index" || t == "sequence" || t == "materialized_view" ||
  t == "policy" || t == "extension" || t == "procedure" ||
  t == "publication" || t == "subscription" || t == "rule" ||
  t == "aggregate"

/-- `db.go:448-669` `FetchObjectDefinition`: early-return when the
definition is already present, dispatch on the type, run the query, and
distinguish no-rows / driver-error / NULL.  On success the (copied) object's
definition is set; on error nothing is written to it. -/
def FetchObjectDefinition (db : DbOracle) (obj : DBObject) : Except String DBObject :=
  if obj.definition != "" then .ok obj
  else if fetchSupported obj.type then
    match db obj with
    | .noRows => .error ("No definition found for " ++ obj.schema ++ "." ++ obj.name ++ " of type " ++ obj.type)
    | .dbError msg => .error ("Database error when fetching definition for " ++ obj.schema ++ "." ++ obj.name ++ ": " ++ msg)
    | .nullValue => .error ("Definition is NULL for " ++ obj.schema ++ "." ++ obj.name ++ " of type " ++ obj.type)
    | .value s => .ok { obj with definition := s }
  else .error ("Unsupported object type: " ++ obj.type)

/-- The value a result slot holds after its fetch task ran: the updated copy
on success, the untouched copy on failure. -/
def fetchSlot (db : DbOracle) (obj : DBObject) : DBObject :=
  match FetchObjectDefinition db obj with
  | .ok o => o
  | .error _ => obj

/-- Whether the fetch task for `obj` records a failure. -/
def fetchFails (db : DbOracle) (obj : DBObject) : Bool :=
  match FetchObjectDefinition db obj with
  | .ok _ => false
  | .error _ => true

/-- The `"schema.name"` entry appended to the failure list when the task
for `obj` fails (`db.go:713`). -/
def failEntry (db : DbOracle) (obj : DBObject) : Option String :=
  if fetchFails db obj then some (obj.schema ++ "." ++ obj.name) else none

/-! ### Operational model of `FetchObjectsDefinitionsConcurrently`
(`db.go:672-724`)

The Go function copies the caller's slice into `results`, then runs one
goroutine per index, gated by a semaphore of capacity `concurrency`.  Each
task reads and writes only `results[idx]`, and appends to the mutex-guarded
`failedObjects` on error.  The caller's `objects` slice is a distinct array
(`copy` copies the value structs).  We model the memory as a state holding
both arrays and run the tasks in index order — a valid linearization, since
distinct tasks touch distinct slots and only the failure list is shared. -/

/-- Memory visible to the fetch loop: the caller's slice, the `results`
copy, and the failure ledger. -/
structure FetchState where
  input : List DBObject
  results : List DBObject
  failed : List String
deriving Repr, DecidableEq

/-- One fetch task (`db.go:692-718`): skip slots that already carry a
definition, otherwise fetch and either store the updated copy at the same
index or append `"schema.name"` to the ledger.  The caller's `input` array
is never touched. -/
def runFetchTask (db : DbOracle) (s : FetchState) (idx : Nat) : FetchState :=
  match s.results[idx]? with
  | none => s
  | some obj =>
    if obj.definition != "" then s
    else
      match FetchObjectDefinition db obj with
      | .ok o => { s with results := s.results.set idx o }
      | .error _ => { s with failed := s.failed ++ [obj.schema ++ "." ++ obj.name] }

/-- The whole concurrent loop, linearized in index order, started from the
state right after `results := copy(objects)`. -/
def fetchRun (db : DbOracle) (objects : List DBObject) : FetchState :=
  (List.range objects.length).foldl (runFetchTask db) ⟨objects, objects, []⟩

/-- `db.go:672-724` `FetchObjectsDefinitionsConcurrently`.  The
`concurrency` budget (defaulted to 10 when `≤ 0`) sizes the semaphore and
therefore only bounds parallelism; the per-index outcomes do not depend on
it. -/
def FetchObjectsDefinitionsConcurrently (db : DbOracle) (objects : List DBObject)
    (concurrency : Int) : List DBObject × List String :=
  let _ := if concurrency ≤ 0 then (10 : Int) else concurrency
  let s := fetchRun db objects
  (s.results, s.failed)

/-! ### Characterization of the fetch loop -/

/-- Setting the element just past a left part lands at the head of the right
part. -/
theorem set_append_length {α : Type _} (l₁ l₂ : List α) (a : α) :
    (l₁ ++ l₂).set l₁.length a = l₁ ++ l₂.set 0 a := by
  induction l₁ with
  | nil => rfl
  | cons x xs ih => simp [List.set, ih]

/-- Variant of `set_append_length` with the index given by an equation, to
avoid rewriting unrelated occurrences. -/
theorem set_append_length_of_eq {α : Type _} (l₁ l₂ : List α) (a : α) (n : Nat)
    (h : n = l₁.length) : (l₁ ++ l₂).set n a = l₁ ++ l₂.set 0 a := by
  subst h
  exact set_append_length l₁ l₂ a

/-- Reduction of one fetch task when the index is in bounds. -/
theorem runFetchTask_some (db : DbOracle) (s : FetchState) (idx : Nat) (obj : DBObject)
    (h : s.results[idx]? = some obj) :
    runFetchTask db s idx =
      if obj.definition != "" then s
      else
        match FetchObjectDefinition db obj with
        | .ok o => { s with results := s.results.set idx o }
        | .error _ => { s with failed := s.failed ++ [obj.schema ++ "." ++ obj.name] } := by
  unfold runFetchTask
  rw [h]

theorem fetchRun_characterization (db : DbOracle) (objects : List DBObject) :
    fetchRun db objects =
      ⟨objects, objects.map (fetchSlot db), objects.filterMap (failEntry db)⟩ := by
  have key : ∀ k, k ≤ objects.length →
      (List.range k).foldl (runFetchTask db) ⟨objects, objects, []⟩ =
        ⟨objects, (objects.map (fetchSlot db)).take k ++ objects.drop k,
          (objects.take k).filterMap (failEntry db)⟩ := by
    intro k
    induction k with
    | zero => intro _; simp
    | succ k ih =>
      intro hk
      have hklt : k < objects.length := Nat.lt_of_succ_le hk
      have hmlen : ((objects.map (fetchSlot db)).take k).length = k := by
        simp [Nat.min_eq_left (Nat.le_of_lt hklt)]
      have hget : (((objects.map (fetchSlot db)).take k) ++ objects.drop k)[k]? =
          some objects[k] := by
        rw [List.getElem?_append_right (by omega), hmlen, Nat.sub_self,
          List.getElem?_drop, Nat.add_zero, List.getElem?_eq_getElem hklt]
      have hdrop : objects.drop k = objects[k] :: objects.drop (k + 1) :=
        List.drop_eq_getElem_cons hklt
      have hmtake : (objects.map (fetchSlot db)).take (k + 1) =
          (objects.map (fetchSlot db)).take k ++ [fetchSlot db objects[k]] := by
        rw [List.take_succ]
        simp [List.getElem?_eq_getElem, hklt]
      have hftake : objects.take (k + 1) = objects.take k ++ [objects[k]] := by
        rw [List.take_succ]
        simp [List.getElem?_eq_getElem, hklt]
      rw [List.range_succ, List.foldl_append, ih (Nat.le_of_lt hklt)]
      simp only [List.foldl_cons, List.foldl_nil]
      rw [runFetchTask_some db _ k objects[k] hget]
      by_cases hdef : objects[k].definition = ""
      · -- the slot still needs a definition
        simp only [hdef, bne_self_eq_false, Bool.false_eq_true, if_false]
        rcases hfetch : FetchObjectDefinition db objects[k] with e | o
        case _ =>
          -- failure: the slot is untouched, the ledger is extended
          have hslot : fetchSlot db objects[k] = objects[k] := by
            simp [fetchSlot, hfetch]
          have hfail : failEntry db objects[k] =
              some (objects[k].schema ++ "." ++ objects[k].name) := by
            simp [failEntry, fetchFails, hfetch]
          simp only [FetchState.mk.injEq]
          refine ⟨by trivial, ?_, ?_⟩
          · rw [hmtake, hslot, hdrop]
            simp
          · rw [hftake, List.filterMap_append]
            simp [hfail]
        case _ =>
          -- success: slot k is overwritten with the fetched copy
          have hslot : fetchSlot db objects[k] = o := by
            simp [fetchSlot, hfetch]
          have hfail : failEntry db objects[k] = none := by
            simp [failEntry, fetchFails, hfetch]
          simp only [FetchState.mk.injEq]
          refine ⟨by trivial, ?_, ?_⟩
          · rw [set_append_length_of_eq _ _ _ _ hmlen.symm, hmtake, hslot]
            conv_lhs => rw [hdrop]
            rw [List.append_assoc]
            rfl
          · rw [hftake, List.filterMap_append]
            simp [hfail]
      · -- the slot already has a definition: the task is skipped
        have hslot : fetchSlot db objects[k] = objects[k] := by
          simp [fetchSlot, FetchObjectDefinition, hdef]
        have hfail : failEntry db objects[k] = none := by
          simp [failEntry, fetchFails, FetchObjectDefinition, hdef]
        have hbne : (objects[k].definition != "") = true := by
          simpa [bne_iff_ne] using hdef
        rw [if_pos hbne]
        simp only [FetchState.mk.injEq]
        refine ⟨by trivial, ?_, ?_⟩
        · rw [hmtake, hslot, hdrop]
          simp
        · rw [hftake, List.filterMap_append]
          simp [hfail]
  have h := key objects.length (le_refl _)
  rw [fetchRun, h]
  simp

/-- Convenient unfolding of the public fetch API. -/
theorem fetchConcurrently_eq (db : DbOracle) (objects : List DBObject) (c : Int) :
    FetchObjectsDefinitionsConcurrently db objects c =
      (objects.map (fetchSlot db), objects.filterMap (failEntry db)) := by
  simp [FetchObjectsDefinitionsConcurrently, fetchRun_characterization]

/-! ### Facts about single fetch outcomes -/

/-- A fetch task can only fail for a descriptor whose definition was empty:
`FetchObjectDefinition` returns early otherwise. -/
theorem fetchFails_definition_empty (db : DbOracle) (obj : DBObject)
    (h : fetchFails db obj = true) : obj.definition = "" := by
  by_contra hne
  simp [fetchFails, FetchObjectDefinition, hne] at h

/-- A failed task leaves its slot untouched. -/
theorem fetchSlot_of_fails (db : DbOracle) (obj : DBObject)
    (h : fetchFails db obj = true) : fetchSlot db obj = obj := by
  unfold fetchFails at h
  unfold fetchSlot
  rcases hf : FetchObjectDefinition db obj with e | o
  · rfl
  · rw [hf] at h
    simp at h

/-- A descriptor that already carries a definition passes through the
Fetcher unchanged. -/
theorem fetchSlot_of_nonempty (db : DbOracle) (obj : DBObject)
    (h : obj.definition ≠ "") : fetchSlot db obj = obj := by
  simp [fetchSlot, FetchObjectDefinition, h]

/-- Every result slot is its input descriptor with (at most) the definition
field replaced. -/
theorem fetchSlot_updates_definition_only (db : DbOracle) (obj : DBObject) :
    ∃ d, fetchSlot db obj = { obj with definition := d } := by
  unfold fetchSlot FetchObjectDefinition
  by_cases h : obj.definition = ""
  · simp only [h, bne_self_eq_false, Bool.false_eq_true, if_false]
    by_cases hs : fetchSupported obj.type
    · simp only [hs, if_true]
      rcases db obj with _ | m | _ | s
      · exact ⟨obj.definition, rfl⟩
      · exact ⟨obj.definition, rfl⟩
      · exact ⟨obj.definition, rfl⟩
      · exact ⟨s, rfl⟩
    · simp only [hs, Bool.false_eq_true, if_false]
      exact ⟨obj.definition, rfl⟩
  · have hb : (obj.definition != "") = true := by simpa [bne_iff_ne] using h
    simp only [hb, if_true]
    exact ⟨obj.definition, rfl⟩

theorem getD_map_of_lt {α β : Type _} (f : α → β) (l : List α) (i : Nat)
    (h : i < l.length) (d : α) (d' : β) : (l.map f).getD i d' = f (l.getD i d) := by
  rw [List.getD_eq_getElem _ _ (by simpa using h), List.getD_eq_getElem _ _ h]
  simp

/-- **C3.** `FetchObjectsDefinitionsConcurrently` returns a results array of
the same length as its input, preserving input order: slot `i` is descriptor
`i` with (at most) its definition filled in.  Whenever the task for slot `i`
failed, the slot equals the input descriptor unchanged and its definition is
empty, and the failure ledger holds exactly the `"schema.name"` strings of the
failing descriptors. -/
theorem fetch_preserves_order_and_failures (db : DbOracle) (objects : List DBObject)
    (c : Int) :
    (FetchObjectsDefinitionsConcurrently db objects c).1.length = objects.length ∧
    (∀ i, i < objects.length →
      (∃ d, (FetchObjectsDefinitionsConcurrently db objects c).1.getD i default =
        { objects.getD i default with definition := d }) ∧
      (fetchFails db (objects.getD i default) = true →
        (FetchObjectsDefinitionsConcurrently db objects c).1.getD i default =
            objects.getD i default ∧
          (objects.getD i default).definition = "")) ∧
    (∀ s, s ∈ (FetchObjectsDefinitionsConcurrently db objects c).2 ↔
      ∃ obj, obj ∈ objects ∧ fetchFails db obj = true ∧
        s = obj.schema ++ "." ++ obj.name) := by
  rw [fetchConcurrently_eq]
  refine ⟨by simp, ?_, ?_⟩
  · intro i hi
    rw [getD_map_of_lt (fetchSlot db) objects i hi default default]
    refine ⟨fetchSlot_updates_definition_only db _, fun hfail => ?_⟩
    exact ⟨fetchSlot_of_fails db _ hfail, fetchFails_definition_empty db _ hfail⟩
  · intro s
    simp only [List.mem_filterMap, failEntry]
    constructor
    · rintro ⟨obj, hmem, hsome⟩
      by_cases hf : fetchFails db obj = true
      · rw [if_pos hf] at hsome
        exact ⟨obj, hmem, hf, (Option.some_inj.mp hsome).symm⟩
      · rw [if_neg hf] at hsome
        cases hsome
    · rintro ⟨obj, hmem, hf, hs⟩
      exact ⟨obj, hmem, by rw [if_pos hf, hs]⟩

/-- Witness for `fetch_preserves_order_and_failures` at a concrete input:
one pre-defined constraint and one function whose query returns no rows. -/
theorem fetch_preserves_order_and_failures_witness :
    (FetchObjectsDefinitionsConcurrently (fun _ => QueryRowResult.noRows)
        [⟨"constraint", "public", "users_pk", "PRIMARY KEY (id)", "users"⟩,
         ⟨"function", "public", "f", "", ""⟩] 10).1.length = 2 ∧
    ("public.f" ∈ (FetchObjectsDefinitionsConcurrently (fun _ => QueryRowResult.noRows)
        [⟨"constraint", "public", "users_pk", "PRIMARY KEY (id)", "users"⟩,
         ⟨"function", "public", "f", "", ""⟩] 10).2 ↔
      ∃ obj, obj ∈ [(⟨"constraint", "public", "users_pk", "PRIMARY KEY (id)", "users"⟩ : DBObject),
          ⟨"function", "public", "f", "", ""⟩] ∧
        fetchFails (fun _ => QueryRowResult.noRows) obj = true ∧
        "public.f" = obj.schema ++ "." ++ obj.name) := by
  have h := fetch_preserves_order_and_failures (fun _ => QueryRowResult.noRows)
    [⟨"constraint", "public", "users_pk", "PRIMARY KEY (id)", "users"⟩,
     ⟨"function", "public", "f", "", ""⟩] 10
  exact ⟨h.1, h.2.2 "public.f"⟩

/-- **C4.** The Fetcher never overwrites a definition that is already
non-empty before the pass (in particular constraint definitions collected at
discovery time), and the caller's input slice is untouched: in the
operational model every task writes only its per-index `results` slot, and
the `input` array after the run equals the original list. -/
theorem fetch_no_overwrite_no_input_mutation (db : DbOracle) (objects : List DBObject)
    (c : Int) :
    (fetchRun db objects).input = objects ∧
    ∀ i, i < objects.length → (objects.getD i default).definition ≠ "" →
      (FetchObjectsDefinitionsConcurrently db objects c).1.getD i default =
        objects.getD i default := by
  constructor
  · rw [fetchRun_characterization]
  · intro i hi hdef
    rw [fetchConcurrently_eq]
    rw [getD_map_of_lt (fetchSlot db) objects i hi default default]
    exact fetchSlot_of_nonempty db _ hdef

/-- Witness for `fetch_no_overwrite_no_input_mutation`: a constraint whose
discovery-time definition survives a fetch pass over an oracle that would
answer a different text. -/
theorem fetch_no_overwrite_no_input_mutation_witness :
    (fetchRun (fun _ => QueryRowResult.value "OTHER")
        [⟨"constraint", "public", "users_pk", "PRIMARY KEY (id)", "users"⟩]).input =
      [⟨"constraint", "public", "users_pk", "PRIMARY KEY (id)", "users"⟩] ∧
    (FetchObjectsDefinitionsConcurrently (fun _ => QueryRowResult.value "OTHER")
        [⟨"constraint", "public", "users_pk", "PRIMARY KEY (id)", "users"⟩] 10).1.getD 0 default =
      ⟨"constraint", "public", "users_pk", "PRIMARY KEY (id)", "users"⟩ := by
  have h := fetch_no_overwrite_no_input_mutation (fun _ => QueryRowResult.value "OTHER")
    [⟨"constraint", "public", "users_pk", "PRIMARY KEY (id)", "users"⟩] 10
  exact ⟨h.1, h.2 0 (by decide) (by decide)⟩

/-! ## The Exporter (`internal/metadata/export/export.go`)

`ExportObjects` (the `continueOnError` variant, `export.go:420-505`) fetches
all definitions through the connector, groups the results by schema and by
owning table, and writes one file per queued task through a worker pool.
We record the filesystem operations a run issues; `os.WriteFile` and
`os.MkdirAll` are assumed to succeed, so the write-error escalation paths
stay unexercised. -/

/-- A filesystem effect: `safelyMkdir` (`os.MkdirAll`, mode `0755`) or
`os.WriteFile` (mode `0644`). -/
inductive FsOp where
  | mkdirAll (path : String)
  | write (path : String) (content : String)
deriving Repr, DecidableEq

/-- `filepath.Join` for the clean, slash-free components the exporter
produces. -/
def pjoin (a b : String) : String := a ++ "/" ++ b

/-- `filepath.Dir`: the path up to the final slash. -/
def dirOf (path : String) : String :=
  String.intercalate "/" (path.splitOn "/").dropLast

/-- `Exporter.writeFile` (`export.go:407-416`): create the parent directory,
then write the file. -/
def writeFileOps (path : String) (content : String) : List FsOp :=
  [.mkdirAll (dirOf path), .write path content]

/-- The grouping key of `ExportObjects` (`export.go:452-467`): a table groups
under its own name; a trigger, index or constraint with a known owning table
groups under that table; everything else is standalone. -/
def tableKey? (obj : DBObject) : Option String :=
  if obj.type == "table" then some obj.name
  else if (obj.type == "trigger" || obj.type == "index" || obj.type == "constraint") &&
      obj.tableName != "" then some obj.tableName
  else none

/-- One queued file task of `exportTableObjects` (`export.go:606-650`): the
switch emits a task for tables, triggers, indexes and constraints only. -/
def tableTaskOps (tableDir : String) (obj : DBObject) : List FsOp :=
  if obj.type == "table" then writeFileOps (pjoin tableDir "table.sql") obj.definition
  else if obj.type == "trigger" then
    writeFileOps (pjoin (pjoin tableDir "triggers") (obj.name ++ ".sql")) obj.definition
  else if obj.type == "index" then
    writeFileOps (pjoin (pjoin tableDir "indexes") (obj.name ++ ".sql")) obj.definition
  else if obj.type == "constraint" then
    writeFileOps (pjoin (pjoin tableDir "constraints") (obj.name ++ ".sql")) obj.definition
  else []

/-- `exportTableObjects` (`export.go:518-672`): per table, create
`<out>/<schema>`, `<out>/<schema>/tables` and the table directory, then queue
one write task per grouped object.  Go map iteration is linearized in
first-occurrence order of the table keys. -/
def exportTableObjectsOps (outputDir schema : String) (objs : List DBObject) : List FsOp :=
  ((objs.filterMap tableKey?).dedup).flatMap (fun t =>
    let schemaDir := pjoin outputDir schema
    let tablesDir := pjoin schemaDir "tables"
    let tableDir := pjoin tablesDir t
    [.mkdirAll schemaDir, .mkdirAll tablesDir, .mkdirAll tableDir] ++
      (objs.filter (fun o => tableKey? o == some t)).flatMap (tableTaskOps tableDir))

/-- `exportStandaloneObjects` (`export.go:676-783`): early return on an
empty list; otherwise create the schema directory, then per type (Go map
iteration linearized in first-occurrence order) create `<schema>/<type>s`
and queue one `<name>.sql` write per object. -/
def exportStandaloneOps (outputDir schema : String) (objs : List DBObject) : List FsOp :=
  if objs.isEmpty then []
  else
    let schemaDir := pjoin outputDir schema
    FsOp.mkdirAll schemaDir ::
      ((objs.map DBObject.type).dedup).flatMap (fun t =>
        let dir := pjoin schemaDir (t ++ "s")
        FsOp.mkdirAll dir ::
          (objs.filter (fun o => o.type == t)).flatMap (fun o =>
            writeFileOps (pjoin dir (o.name ++ ".sql")) o.definition))

/-- The fail-fast error of `ExportObjects` (`export.go:435`), carrying the
`"schema.name"` definition-fetch failure list. -/
inductive ExportError where
  | fetchFailure (failed : List String)
deriving Repr, DecidableEq

/-- The per-object warning logged when a trigger, index or constraint has no
associated table name (`export.go:461`). -/
def noTableWarn (obj : DBObject) : String :=
  obj.type ++ " " ++ obj.name ++ " has no associated table name"

/-- The batch warning logged under `warn` when some definitions failed
(`export.go:432`). -/
def fetchWarn (failed : List String) : String :=
  "Failed to fetch definitions for " ++ toString failed.length ++
    " objects. Continuing with the rest."

/-- Outcome of one `ExportObjects` call: the filesystem operations issued,
the warnings logged, and the error if the call aborted. -/
structure ExportRun where
  ops : List FsOp
  warnings : List String
  err : Option ExportError
deriving Repr, DecidableEq

/-- The grouped write phase of `ExportObjects` (`export.go:439-496`): ensure
the output directory, then per schema (Go map linearized in first-occurrence
order) export the table groups and the standalone objects. -/
def exportGroupedOps (outputDir : String) (objectsWithDefs : List DBObject) : List FsOp :=
  let schemas := (objectsWithDefs.map DBObject.schema).dedup
  FsOp.mkdirAll outputDir ::
    schemas.flatMap (fun schema =>
      let schemaObjs := objectsWithDefs.filter (fun o => o.schema == schema)
      let tableObjs := schemaObjs.filter (fun o => (tableKey? o).isSome)
      let standaloneObjs := schemaObjs.filter (fun o => (tableKey? o).isNone)
      (if tableObjs.isEmpty then []
       else exportTableObjectsOps outputDir schema tableObjs) ++
        exportStandaloneOps outputDir schema standaloneObjs)

/-- `export.go:420-505` `ExportObjects` with `continueOnError`
(`true` is the `warn` policy, `false` is `fail`): fetch all definitions
through the connector, abort with the failure list under `fail`, otherwise
group every fetched descriptor by schema and owning table and queue one
write per descriptor — tables and their nested objects first, then the
standalone type groups. -/
def ExportObjects (db : DbOracle) (outputDir : String) (concurrency : Int)
    (objects : List DBObject) (continueOnError : Bool) : ExportRun :=
  let fetched := FetchObjectsDefinitionsConcurrently db objects concurrency
  let objectsWithDefs := fetched.1
  let failedObjects := fetched.2
  if 0 < failedObjects.length && !continueOnError then
    ⟨[], [], some (.fetchFailure failedObjects)⟩
  else
    let fetchWarnings := if 0 < failedObjects.length then [fetchWarn failedObjects] else []
    let groupWarnings := objectsWithDefs.filterMap (fun o =>
      if (o.type == "trigger" || o.type == "index" || o.type == "constraint") &&
          o.tableName == "" then some (noTableWarn o) else none)
    ⟨exportGroupedOps outputDir objectsWithDefs, fetchWarnings ++ groupWarnings, none⟩

/-- The write operations of a trace, with their contents. -/
def writesOf (ops : List FsOp) : List (String × String) :=
  ops.filterMap (fun op => match op with
    | .write p c => some (p, c)
    | _ => none)

/-- The destination path `ExportObjects` chooses for one descriptor, read
off `exportTableObjects` and `exportStandaloneObjects`. -/
def pathFor (outputDir : String) (o : DBObject) : String :=
  let schemaDir := pjoin outputDir o.schema
  if o.type == "table" then pjoin (pjoin (pjoin schemaDir "tables") o.name) "table.sql"
  else if o.type == "trigger" && o.tableName != "" then
    pjoin (pjoin (pjoin (pjoin schemaDir "tables") o.tableName) "triggers") (o.name ++ ".sql")
  else if o.type == "index" && o.tableName != "" then
    pjoin (pjoin (pjoin (pjoin schemaDir "tables") o.tableName) "indexes") (o.name ++ ".sql")
  else if o.type == "constraint" && o.tableName != "" then
    pjoin (pjoin (pjoin (pjoin schemaDir "tables") o.tableName) "constraints") (o.name ++ ".sql")
  else pjoin (pjoin schemaDir (o.type ++ "s")) (o.name ++ ".sql")

/-! ### Grouping machinery

`ExportObjects` distributes the descriptors into Go maps and walks them;
the write set is invariant under the iteration order.  The lemmas below
show that regrouping by any covering, duplicate-free key list is a
permutation. -/

theorem writesOf_append (a b : List FsOp) :
    writesOf (a ++ b) = writesOf a ++ writesOf b := by
  simp [writesOf, List.filterMap_append]

theorem writesOf_mkdir_cons (p : String) (rest : List FsOp) :
    writesOf (FsOp.mkdirAll p :: rest) = writesOf rest := by
  simp [writesOf]

theorem writesOf_flatMap {α : Type _} (l : List α) (f : α → List FsOp) :
    writesOf (l.flatMap f) = l.flatMap (fun a => writesOf (f a)) := by
  induction l with
  | nil => simp [writesOf]
  | cons x xs ih => simp [List.flatMap_cons, writesOf_append, ih]

theorem flatMap_congr_mem {α β : Type _} (l : List α) (f g : α → List β)
    (h : ∀ a ∈ l, f a = g a) : l.flatMap f = l.flatMap g := by
  induction l with
  | nil => rfl
  | cons x xs ih =>
    simp only [List.flatMap_cons]
    rw [h x (by simp), ih (fun a ha => h a (by simp [ha]))]

theorem flatMap_singleton_eq_map {α β : Type _} (l : List α) (f : α → β) :
    l.flatMap (fun a => [f a]) = l.map f := by
  induction l with
  | nil => rfl
  | cons x xs ih => simp [List.flatMap_cons, ih]

theorem perm_flatMap_of_pointwise {α β : Type _} (l : List α) (f g : α → List β)
    (h : ∀ a ∈ l, List.Perm (f a) (g a)) :
    List.Perm (l.flatMap f) (l.flatMap g) := by
  induction l with
  | nil => simp
  | cons x xs ih =>
    simp only [List.flatMap_cons]
    exact (h x (by simp)).append (ih (fun a ha => h a (by simp [ha])))

/-- Splitting a list into the filter groups of a duplicate-free key list
covering all its keys is a permutation. -/
theorem perm_flatMap_groups {α β : Type _} [BEq β] [LawfulBEq β] (key : α → β)
    (keys : List β) (l : List α) (hnd : keys.Nodup)
    (hcov : ∀ a ∈ l, key a ∈ keys) :
    List.Perm (keys.flatMap (fun k => l.filter (fun a => key a == k))) l := by
  induction keys generalizing l with
  | nil =>
    have hl : l = [] := by
      cases l with
      | nil => rfl
      | cons x xs => exact absurd (hcov x (by simp)) (by simp)
    simp [hl]
  | cons k ks ih =>
    have hk : k ∉ ks := (List.nodup_cons.mp hnd).1
    have hnd' : ks.Nodup := (List.nodup_cons.mp hnd).2
    simp only [List.flatMap_cons]
    have hrest : ks.flatMap (fun k2 => l.filter (fun a => key a == k2)) =
        ks.flatMap (fun k2 =>
          (l.filter (fun a => !(key a == k))).filter (fun a => key a == k2)) := by
      apply flatMap_congr_mem
      intro k2 hk2
      rw [List.filter_filter]
      apply List.filter_congr
      intro a _
      by_cases hke : key a = k2
      · have hne : k2 ≠ k := fun hkk => hk (hkk ▸ hk2)
        simp [hke, hne]
      · simp [hke]
    rw [hrest]
    have hihl : List.Perm
        (ks.flatMap (fun k2 =>
          (l.filter (fun a => !(key a == k))).filter (fun a => key a == k2)))
        (l.filter (fun a => !(key a == k))) := by
      apply ih _ hnd'
      intro a ha
      have hmem := List.mem_of_mem_filter ha
      have hne : (key a == k) = false := by
        have := List.of_mem_filter ha
        simpa using this
      have := hcov a hmem
      simp only [List.mem_cons] at this
      rcases this with h1 | h2
      · exact absurd h1 (by simpa using hne)
      · exact h2
    refine List.Perm.trans (hihl.append_left _) ?_
    exact List.filter_append_perm (fun a => key a == k) l

/-! ### One write per descriptor -/

/-- A table-group task writes exactly the file `pathFor` names, provided
the object really belongs to table group `t` of its own schema. -/
theorem writesOf_tableTaskOps (outputDir : String) (t : String) (o : DBObject)
    (h : tableKey? o = some t) :
    writesOf (tableTaskOps (pjoin (pjoin (pjoin outputDir o.schema) "tables") t) o) =
      [(pathFor outputDir o, o.definition)] := by
  unfold tableKey? at h
  by_cases h1 : o.type = "table"
  · simp only [h1, beq_self_eq_true, if_true, Option.some_inj] at h
    subst h
    simp [tableTaskOps, pathFor, writesOf, writeFileOps, h1]
  · rw [if_neg (by simpa using h1)] at h
    by_cases h2 : (o.type = "trigger" ∨ o.type = "index" ∨ o.type = "constraint") ∧
        o.tableName ≠ ""
    · have hcond : ((o.type == "trigger" || o.type == "index" || o.type == "constraint") &&
          o.tableName != "") = true := by
        rcases h2 with ⟨hty, htn⟩
        rcases hty with h3 | h3 | h3 <;> simp [h3, htn]
      rw [if_pos hcond, Option.some_inj] at h
      subst h
      rcases h2 with ⟨hty, htn⟩
      rcases hty with h3 | h3 | h3 <;>
        simp [tableTaskOps, pathFor, writesOf, writeFileOps, h1, h3, htn]
    · have hcond : ((o.type == "trigger" || o.type == "index" || o.type == "constraint") &&
          o.tableName != "") = false := by
        rcases Decidable.not_and_iff_or_not.mp h2 with h3 | h3
        · push_neg at h3
          obtain ⟨ha, hb, hc⟩ := h3
          simp [ha, hb, hc]
        · push_neg at h3
          simp [h3]
      rw [if_neg (by simp [hcond])] at h
      cases h

/-- A standalone descriptor (one with no table group) is written to the
path `pathFor` names: `<out>/<schema>/<type>s/<name>.sql`. -/
theorem pathFor_standalone (outputDir : String) (o : DBObject)
    (h : tableKey? o = none) :
    pathFor outputDir o =
      pjoin (pjoin (pjoin outputDir o.schema) (o.type ++ "s")) (o.name ++ ".sql") := by
  unfold tableKey? at h
  by_cases h1 : o.type = "table"
  · simp [h1] at h
  · rw [if_neg (by simpa using h1)] at h
    by_cases h2 : ((o.type == "trigger" || o.type == "index" || o.type == "constraint") &&
        o.tableName != "") = true
    · rw [if_pos h2] at h
      cases h
    · have h2' : ¬((o.type = "trigger" ∨ o.type = "index" ∨ o.type = "constraint") ∧
          o.tableName ≠ "") := by
        rintro ⟨hty, htn⟩
        apply h2
        rcases hty with h3 | h3 | h3 <;> simp [h3, htn]
      have htr : (o.type == "trigger" && o.tableName != "") = false := by
        by_cases h3 : o.type = "trigger"
        · have htn : o.tableName = "" := by
            by_contra htn
            exact h2' ⟨Or.inl h3, htn⟩
          simp [htn]
        · simp [h3]
      have hidx : (o.type == "index" && o.tableName != "") = false := by
        by_cases h3 : o.type = "index"
        · have htn : o.tableName = "" := by
            by_contra htn
            exact h2' ⟨Or.inr (Or.inl h3), htn⟩
          simp [htn]
        · simp [h3]
      have hcon : (o.type == "constraint" && o.tableName != "") = false := by
        by_cases h3 : o.type = "constraint"
        · have htn : o.tableName = "" := by
            by_contra htn
            exact h2' ⟨Or.inr (Or.inr h3), htn⟩
          simp [htn]
        · simp [h3]
      unfold pathFor
      rw [if_neg (by simpa using h1)]
      simp only [htr, hidx, hcon, Bool.false_eq_true, if_false]

/-- A standalone task writes exactly the file `pathFor` names. -/
theorem writesOf_standaloneTask (outputDir : String) (o : DBObject)
    (h : tableKey? o = none) :
    writesOf (writeFileOps
        (pjoin (pjoin (pjoin outputDir o.schema) (o.type ++ "s")) (o.name ++ ".sql"))
        o.definition) =
      [(pathFor outputDir o, o.definition)] := by
  rw [pathFor_standalone outputDir o h]
  simp [writesOf, writeFileOps]

/-- The table half of one schema writes exactly one file per grouped
descriptor, up to task order. -/
theorem writesOf_exportTableObjectsOps (outputDir schema : String) (objs : List DBObject)
    (hsch : ∀ o ∈ objs, o.schema = schema)
    (hkey : ∀ o ∈ objs, (tableKey? o).isSome = true) :
    List.Perm (writesOf (exportTableObjectsOps outputDir schema objs))
      (objs.map (fun o => (pathFor outputDir o, o.definition))) := by
  unfold exportTableObjectsOps
  rw [writesOf_flatMap]
  have hstep : ∀ t,
      writesOf ([FsOp.mkdirAll (pjoin outputDir schema),
          FsOp.mkdirAll (pjoin (pjoin outputDir schema) "tables"),
          FsOp.mkdirAll (pjoin (pjoin (pjoin outputDir schema) "tables") t)] ++
        (objs.filter (fun o => tableKey? o == some t)).flatMap
          (tableTaskOps (pjoin (pjoin (pjoin outputDir schema) "tables") t))) =
      (objs.filter (fun o => tableKey? o == some t)).map
        (fun o => (pathFor outputDir o, o.definition)) := by
    intro t
    rw [writesOf_append]
    have h0 : writesOf [FsOp.mkdirAll (pjoin outputDir schema),
        FsOp.mkdirAll (pjoin (pjoin outputDir schema) "tables"),
        FsOp.mkdirAll (pjoin (pjoin (pjoin outputDir schema) "tables") t)] = [] := by
      simp [writesOf]
    rw [h0, List.nil_append, writesOf_flatMap, ← flatMap_singleton_eq_map]
    apply flatMap_congr_mem
    intro o ho
    have hmem := List.mem_of_mem_filter ho
    have hkeyo : tableKey? o = some t := by simpa using List.of_mem_filter ho
    have hs := hsch o hmem
    rw [← hs]
    exact writesOf_tableTaskOps outputDir t o hkeyo
  rw [flatMap_congr_mem _ _ _ (fun t _ => hstep t), ← List.map_flatMap]
  refine List.Perm.map _ ?_
  have hconv : ((objs.filterMap tableKey?).dedup).flatMap
        (fun t => objs.filter (fun o => tableKey? o == some t)) =
      (((objs.filterMap tableKey?).dedup).map some).flatMap
        (fun k => objs.filter (fun o => tableKey? o == k)) := by
    rw [List.flatMap_map]
  rw [hconv]
  apply perm_flatMap_groups
  · exact (List.nodup_dedup _).map (Option.some_injective _)
  · intro o ho
    rcases Option.isSome_iff_exists.mp (hkey o ho) with ⟨t0, ht0⟩
    have : t0 ∈ (objs.filterMap tableKey?).dedup :=
      List.mem_dedup.mpr (List.mem_filterMap.mpr ⟨o, ho, ht0⟩)
    rw [ht0]
    exact List.mem_map_of_mem some this

/-- The standalone half of one schema writes exactly one file per
descriptor, up to task order. -/
theorem writesOf_exportStandaloneOps (outputDir schema : String) (objs : List DBObject)
    (hsch : ∀ o ∈ objs, o.schema = schema)
    (hkey : ∀ o ∈ objs, tableKey? o = none) :
    List.Perm (writesOf (exportStandaloneOps outputDir schema objs))
      (objs.map (fun o => (pathFor outputDir o, o.definition))) := by
  unfold exportStandaloneOps
  by_cases hemp : objs.isEmpty
  · have hnil : objs = [] := by
      cases objs with
      | nil => rfl
      | cons x xs => simp at hemp
    simp [hnil, writesOf]
  · rw [if_neg hemp, writesOf_mkdir_cons, writesOf_flatMap]
    have hstep : ∀ t,
        writesOf (FsOp.mkdirAll (pjoin (pjoin outputDir schema) (t ++ "s")) ::
          (objs.filter (fun o => o.type == t)).flatMap (fun o =>
            writeFileOps (pjoin (pjoin (pjoin outputDir schema) (t ++ "s"))
              (o.name ++ ".sql")) o.definition)) =
        (objs.filter (fun o => o.type == t)).map
          (fun o => (pathFor outputDir o, o.definition)) := by
      intro t
      rw [writesOf_mkdir_cons, writesOf_flatMap, ← flatMap_singleton_eq_map]
      apply flatMap_congr_mem
      intro o ho
      have hmem := List.mem_of_mem_filter ho
      have hto : o.type = t := by simpa using List.of_mem_filter ho
      have hs := hsch o hmem
      rw [← hs, ← hto]
      exact writesOf_standaloneTask outputDir o (hkey o hmem)
    rw [flatMap_congr_mem _ _ _ (fun t _ => hstep t), ← List.map_flatMap]
    refine List.Perm.map _ ?_
    apply perm_flatMap_groups
    · exact List.nodup_dedup _
    · intro o ho
      exact List.mem_dedup.mpr (List.mem_map_of_mem _ ho)

/-- The grouped write phase issues exactly one file write per descriptor,
at the path `pathFor` names, up to worker order. -/
theorem writesOf_exportGroupedOps (outputDir : String) (owd : List DBObject) :
    List.Perm (writesOf (exportGroupedOps outputDir owd))
      (owd.map (fun o => (pathFor outputDir o, o.definition))) := by
  unfold exportGroupedOps
  rw [writesOf_mkdir_cons, writesOf_flatMap]
  have hsplit : ∀ s, List.Perm
      (writesOf ((if ((owd.filter (fun o => o.schema == s)).filter
            (fun o => (tableKey? o).isSome)).isEmpty then []
          else exportTableObjectsOps outputDir s
            ((owd.filter (fun o => o.schema == s)).filter (fun o => (tableKey? o).isSome))) ++
        exportStandaloneOps outputDir s
          ((owd.filter (fun o => o.schema == s)).filter (fun o => (tableKey? o).isNone))))
      ((owd.filter (fun o => o.schema == s)).map
        (fun o => (pathFor outputDir o, o.definition))) := by
    intro s
    rw [writesOf_append]
    have hsch : ∀ o ∈ owd.filter (fun o => o.schema == s), o.schema = s := by
      intro o ho
      simpa using List.of_mem_filter ho
    have htbl : List.Perm
        (writesOf (if ((owd.filter (fun o => o.schema == s)).filter
              (fun o => (tableKey? o).isSome)).isEmpty then []
            else exportTableObjectsOps outputDir s
              ((owd.filter (fun o => o.schema == s)).filter (fun o => (tableKey? o).isSome))))
        (((owd.filter (fun o => o.schema == s)).filter (fun o => (tableKey? o).isSome)).map
          (fun o => (pathFor outputDir o, o.definition))) := by
      by_cases hemp : ((owd.filter (fun o => o.schema == s)).filter
          (fun o => (tableKey? o).isSome)).isEmpty
      · have hnil : (owd.filter (fun o => o.schema == s)).filter
            (fun o => (tableKey? o).isSome) = [] := by
          cases hl : (owd.filter (fun o => o.schema == s)).filter
              (fun o => (tableKey? o).isSome) with
          | nil => rfl
          | cons x xs => rw [hl] at hemp; simp at hemp
        rw [if_pos hemp, hnil]
        simp [writesOf]
      · rw [if_neg hemp]
        apply writesOf_exportTableObjectsOps
        · intro o ho
          exact hsch o (List.mem_of_mem_filter ho)
        · intro o ho
          simpa using List.of_mem_filter ho
    have hsa : List.Perm
        (writesOf (exportStandaloneOps outputDir s
          ((owd.filter (fun o => o.schema == s)).filter (fun o => (tableKey? o).isNone))))
        (((owd.filter (fun o => o.schema == s)).filter (fun o => (tableKey? o).isNone)).map
          (fun o => (pathFor outputDir o, o.definition))) := by
      apply writesOf_exportStandaloneOps
      · intro o ho
        exact hsch o (List.mem_of_mem_filter ho)
      · intro o ho
        have := List.of_mem_filter ho
        simpa [Option.isNone_iff_eq_none] using this
    refine List.Perm.trans (htbl.append hsa) ?_
    rw [← List.map_append]
    refine List.Perm.map _ ?_
    have hnone : (owd.filter (fun o => o.schema == s)).filter (fun o => (tableKey? o).isNone) =
        (owd.filter (fun o => o.schema == s)).filter (fun o => !(tableKey? o).isSome) := by
      apply List.filter_congr
      intro o _
      rw [Option.bnot_isSome]
    rw [hnone]
    exact List.filter_append_perm _ _
  refine List.Perm.trans (perm_flatMap_of_pointwise _ _ _ (fun s _ => hsplit s)) ?_
  rw [← List.map_flatMap]
  refine List.Perm.map _ ?_
  apply perm_flatMap_groups
  · exact List.nodup_dedup _
  · intro o ho
    exact List.mem_dedup.mpr (List.mem_map_of_mem _ ho)

/-! ### Claim theorems about the Exporter -/

theorem exportObjects_warn_ops (db : DbOracle) (outputDir : String) (c : Int)
    (objects : List DBObject) :
    (ExportObjects db outputDir c objects true).ops =
      exportGroupedOps outputDir (FetchObjectsDefinitionsConcurrently db objects c).1 := by
  unfold ExportObjects
  simp

theorem exportObjects_warn_err (db : DbOracle) (outputDir : String) (c : Int)
    (objects : List DBObject) :
    (ExportObjects db outputDir c objects true).err = none := by
  unfold ExportObjects
  simp

/-- An oracle whose every definition query returns no rows
(`sql.ErrNoRows`), so every fetch fails. -/
def dbNoRows : DbOracle := fun _ => QueryRowResult.noRows

/-- A function descriptor before any fetch (empty definition). -/
def objFuncF : DBObject := ⟨"function", "public", "f", "", ""⟩

/-- **C1 (counterexample).** A `warn`-mode export of a single function whose
definition fetch fails: after the fetch phase every descriptor's definition
is empty, yet the run still writes a file — the claim that no file is
written for an empty-definition descriptor is false on the code. -/
theorem export_warn_empty_definition_still_written :
    (∀ o ∈ (FetchObjectsDefinitionsConcurrently dbNoRows [objFuncF] 50).1,
      o.definition = "") ∧
    writesOf (ExportObjects dbNoRows "pgmeta-output" 50 [objFuncF] true).ops ≠ [] := by
  decide

/-- **C1 (amended).** Under the `warn` policy an export run never errors and
issues exactly one file write per descriptor — including descriptors whose
definition is empty after the fetch phase: the Exporter does not skip them,
it writes their (empty) definition like any other.  The writes are, up to
worker order, precisely `(pathFor o, o.definition)` over the fetched
descriptors. -/
theorem export_warn_one_write_per_descriptor (db : DbOracle) (outputDir : String)
    (c : Int) (objects : List DBObject) :
    (ExportObjects db outputDir c objects true).err = none ∧
    List.Perm (writesOf (ExportObjects db outputDir c objects true).ops)
      ((FetchObjectsDefinitionsConcurrently db objects c).1.map
        (fun o => (pathFor outputDir o, o.definition))) ∧
    (writesOf (ExportObjects db outputDir c objects true).ops).length = objects.length := by
  refine ⟨exportObjects_warn_err db outputDir c objects, ?_, ?_⟩
  · rw [exportObjects_warn_ops]
    exact writesOf_exportGroupedOps outputDir _
  · rw [exportObjects_warn_ops]
    have hperm := writesOf_exportGroupedOps outputDir
      (FetchObjectsDefinitionsConcurrently db objects c).1
    rw [hperm.length_eq, List.length_map, fetchConcurrently_eq]
    simp

/-- **C2.** Under the `fail` policy, if the definition-fetch failure list is
non-empty then `ExportObjects` aborts before touching the filesystem: it
issues no operation at all (no file write, no directory creation), logs no
warning, and returns the error carrying exactly the `"schema.name"` failure
list. -/
theorem export_fail_aborts_before_filesystem (db : DbOracle) (outputDir : String)
    (c : Int) (objects : List DBObject)
    (h : (FetchObjectsDefinitionsConcurrently db objects c).2 ≠ []) :
    ExportObjects db outputDir c objects false =
      ⟨[], [], some (ExportError.fetchFailure
        (FetchObjectsDefinitionsConcurrently db objects c).2)⟩ := by
  unfold ExportObjects
  have hpos : 0 < (FetchObjectsDefinitionsConcurrently db objects c).2.length :=
    List.length_pos.mpr h
  simp [hpos]

/-- Witness for `export_fail_aborts_before_filesystem`: the failing function
export under `fail` returns the error naming `public.f` and an empty
filesystem trace. -/
theorem export_fail_aborts_before_filesystem_witness :
    ExportObjects dbNoRows "pgmeta-output" 50 [objFuncF] false =
      ⟨[], [], some (ExportError.fetchFailure ["public.f"])⟩ := by
  have hfl : (FetchObjectsDefinitionsConcurrently dbNoRows [objFuncF] 50).2 =
      ["public.f"] := by decide
  have h := export_fail_aborts_before_filesystem dbNoRows "pgmeta-output" 50 [objFuncF]
    (by rw [hfl]; simp)
  rw [h, hfl]

/-- An oracle answering every definition query with a fixed policy DDL. -/
def dbPolicyDef : DbOracle :=
  fun _ => QueryRowResult.value "CREATE POLICY p1 ON public.t1 FOR SELECT TO PUBLIC;"

/-- A policy descriptor whose owning table `t1` is known. -/
def objPolicyT1 : DBObject := ⟨"policy", "public", "p1", "", "t1"⟩

/-- **C5 (failing input).** A policy with a non-empty owning table is NOT
nested under `<root>/<schema>/tables/<table>/policies/`: the grouping switch
of `ExportObjects` only nests triggers, indexes and constraints, so the
policy is exported standalone to `<root>/<schema>/policys/<name>.sql` (note
the plural `policys` produced by `string(objType)+"s"`), and no warning is
emitted.  This contradicts the repository's own README, which documents
`tables/<table>/policies/` in the output tree. -/
theorem export_policy_owned_placed_standalone :
    writesOf (ExportObjects dbPolicyDef "out" 50 [objPolicyT1] true).ops =
      [("out/public/policys/p1.sql",
        "CREATE POLICY p1 ON public.t1 FOR SELECT TO PUBLIC;")] ∧
    (ExportObjects dbPolicyDef "out" 50 [objPolicyT1] true).warnings = [] := by
  decide

/-! ## The Discovery Planner (`db.go`, `QueryObjects` and friends)

Each per-type discovery query returns rows whose shape follows its SELECT
list; the catalog below abstracts the database's answers.  The Go code scans
each row into a `DBObject` (unset fields keep Go's zero value `""`) and
keeps it when the compiled name pattern matches. -/

/-- A three-column discovery row: `(type, schema, name)`. -/
structure Row3 where
  typeStr : String
  schema : String
  name : String
deriving Repr, DecidableEq

/-- A four-column discovery row: `(type, schema, name, table_name)`. -/
structure Row4 where
  typeStr : String
  schema : String
  name : String
  tableName : String
deriving Repr, DecidableEq

/-- A five-column constraint row: `(type, schema, name, table_name,
pg_get_constraintdef)`. -/
structure Row5 where
  typeStr : String
  schema : String
  name : String
  tableName : String
  definition : String
deriving Repr, DecidableEq

/-- A sequence row: the owner table comes from a LEFT JOIN and is nullable
(`sql.NullString`). -/
structure RowSeq where
  typeStr : String
  schema : String
  name : String
  tableName : Option String
deriving Repr, DecidableEq

/-- The database side of discovery: what each catalog query returns, plus
`information_schema.schemata` backing `schemaExists` and `GetAllSchemas`. -/
structure Catalog where
  schemata : List String
  tablesAndViews : String → List Row3
  functions : String → List Row3
  aggregates : String → List Row3
  triggers : String → List Row4
  indexes : String → List Row4
  constraints : String → List Row5
  sequences : String → List RowSeq
  materializedViews : String → List Row3
  policies : String → List Row4
  extensions : String → List Row3
  procedures : String → List Row3
  rules : String → List Row4
  publications : List Row3
  subscriptions : List Row3

/-- Scanning a three-column row (`rows.Scan(&typeStr, &obj.Schema,
&obj.Name)`); unset fields keep Go's zero value. -/
def obj3 (r : Row3) : DBObject := ⟨r.typeStr, r.schema, r.name, "", ""⟩

/-- Scanning a four-column row (adds `&obj.TableName`). -/
def obj4 (r : Row4) : DBObject := ⟨r.typeStr, r.schema, r.name, "", r.tableName⟩

/-- Scanning a constraint row (adds `&obj.Definition`). -/
def obj5 (r : Row5) : DBObject := ⟨r.typeStr, r.schema, r.name, r.definition, r.tableName⟩

/-- Scanning a sequence row: `TableName` is set only when the nullable
column is valid. -/
def objSeq (r : RowSeq) : DBObject := ⟨r.typeStr, r.schema, r.name, "", r.tableName.getD ""⟩

def queryTablesAndViews (cat : Catalog) (m : String → Bool) (schema : String) : List DBObject :=
  ((cat.tablesAndViews schema).map obj3).filter (fun o => m o.name)

def queryFunctions (cat : Catalog) (m : String → Bool) (schema : String) : List DBObject :=
  ((cat.functions schema).map obj3).filter (fun o => m o.name)

def queryAggregates (cat : Catalog) (m : String → Bool) (schema : String) : List DBObject :=
  ((cat.aggregates schema).map obj3).filter (fun o => m o.name)

def queryTriggers (cat : Catalog) (m : String → Bool) (schema : String) : List DBObject :=
  ((cat.triggers schema).map obj4).filter (fun o => m o.name)

def queryIndexes (cat : Catalog) (m : String → Bool) (schema : String) : List DBObject :=
  ((cat.indexes schema).map obj4).filter (fun o => m o.name)

def queryConstraints (cat : Catalog) (m : String → Bool) (schema : String) : List DBObject :=
  ((cat.constraints schema).map obj5).filter (fun o => m o.name)

def querySequences (cat : Catalog) (m : String → Bool) (schema : String) : List DBObject :=
  ((cat.sequences schema).map objSeq).filter (fun o => m o.name)

def queryMaterializedViews (cat : Catalog) (m : String → Bool) (schema : String) : List DBObject :=
  ((cat.materializedViews schema).map obj3).filter (fun o => m o.name)

def queryPolicies (cat : Catalog) (m : String → Bool) (schema : String) : List DBObject :=
  ((cat.policies schema).map obj4).filter (fun o => m o.name)

def queryExtensions (cat : Catalog) (m : String → Bool) (schema : String) : List DBObject :=
  ((cat.extensions schema).map obj3).filter (fun o => m o.name)

def queryProcedures (cat : Catalog) (m : String → Bool) (schema : String) : List DBObject :=
  ((cat.procedures schema).map obj3).filter (fun o => m o.name)

def queryRules (cat : Catalog) (m : String → Bool) (schema : String) : List DBObject :=
  ((cat.rules schema).map obj4).filter (fun o => m o.name)

def queryPublications (cat : Catalog) (m : String → Bool) : List DBObject :=
  (cat.publications.map obj3).filter (fun o => m o.name)

def querySubscriptions (cat : Catalog) (m : String → Bool) : List DBObject :=
  (cat.subscriptions.map obj3).filter (fun o => m o.name)

/-- `types.QueryOptions` (the `Database` field is never read by
`QueryObjects` and is omitted). -/
structure QueryOptions where
  types : List String
  schemas : List String
  nameRegex : String
deriving Repr, DecidableEq

inductive QueryError where
  | invalidRegex (pattern : String)
  | schemaNotFound (schema : String)
deriving Repr, DecidableEq

/-- Go's `regexp` package (external to this repository): `compile` fails or
yields a matcher; the matcher is `pattern.MatchString`. -/
structure RegexEngine where
  compile : String → Option (String → Bool)

/-- The body of the per-schema loop of `QueryObjects` (`db.go:91-213`): the
twelve guarded per-type queries, appended in source order. -/
def perSchemaObjects (cat : Catalog) (types : List String) (m : String → Bool)
    (schema : String) : List DBObject :=
  (if ContainsAny types ["table", "view"] then queryTablesAndViews cat m schema else []) ++
  (if ContainsAny types ["function"] then queryFunctions cat m schema else []) ++
  (if ContainsAny types ["trigger"] then queryTriggers cat m schema else []) ++
  (if ContainsAny types ["index"] then queryIndexes cat m schema else []) ++
  (if ContainsAny types ["constraint"] then queryConstraints cat m schema else []) ++
  (if ContainsAny types ["sequence"] then querySequences cat m schema else []) ++
  (if ContainsAny types ["materialized_view"] then queryMaterializedViews cat m schema else []) ++
  (if ContainsAny types ["policy"] then queryPolicies cat m schema else []) ++
  (if ContainsAny types ["extension"] then queryExtensions cat m schema else []) ++
  (if ContainsAny types ["procedure"] then queryProcedures cat m schema else []) ++
  (if ContainsAny types ["rule"] then queryRules cat m schema else []) ++
  (if ContainsAny types ["aggregate"] then queryAggregates cat m schema else [])

/-- `db.go:66-240` `QueryObjects`: default the schema list to `["public"]`,
compile the pattern, verify every schema exists (first missing one is
fatal), then run the per-schema queries followed by the database-level
publication and subscription queries. -/
def QueryObjects (re : RegexEngine) (cat : Catalog) (opts : QueryOptions) :
    Except QueryError (List DBObject) :=
  match re.compile opts.nameRegex with
  | none => .error (.invalidRegex opts.nameRegex)
  | some m =>
    match (if opts.schemas.isEmpty then ["public"] else opts.schemas).find?
        (fun s => !(cat.schemata.contains s)) with
    | some s => .error (.schemaNotFound s)
    | none =>
      .ok ((if opts.schemas.isEmpty then ["public"] else opts.schemas).flatMap
          (perSchemaObjects cat opts.types m) ++
        (if ContainsAny opts.types ["publication"] then queryPublications cat m else []) ++
        (if ContainsAny opts.types ["subscription"] then querySubscriptions cat m else []))

/-- `SELECT ... NOT LIKE 'pg\x5f%'`: the SQL `_` wildcard matches exactly one
character, so the pattern matches names of length at least 3 starting with
`pg`. -/
def likePgPattern (s : String) : Bool := s.startsWith "pg" && decide (3 ≤ s.length)

/-- Ascending insertion into a sorted list, modelling `ORDER BY`. -/
def insertAsc (x : String) : List String → List String
  | [] => [x]
  | y :: ys => if x ≤ y then x :: y :: ys else y :: insertAsc x ys

/-- Ascending sort, modelling `ORDER BY schema_name`. -/
def sortAsc : List String → List String
  | [] => []
  | x :: xs => insertAsc x (sortAsc xs)

/-- `db.go:830-853` `GetAllSchemas`: all schemas except those matching
`pg_%` and `information_schema`, in ascending order. -/
def GetAllSchemas (cat : Catalog) : List String :=
  sortAsc (cat.schemata.filter (fun n => !(likePgPattern n) && n != "information_schema"))

/-! ## The connection store (`internal/config/connection.go`) -/

/-- `config.Connection`. -/
structure Connection where
  name : String
  url : String
  isDefault : Bool
deriving Repr, DecidableEq, Inhabited

/-- `config.Config` (the on-disk `configPath` is irrelevant to the claims
and omitted; `Save` is assumed to succeed). -/
structure Config where
  connections : List Connection
deriving Repr, DecidableEq, Inhabited

/-- `connection.go:233-240` `GetConnection`: first connection with the
given name, if any. -/
def GetConnection (c : Config) (name : String) : Option Connection :=
  c.connections.find? (fun conn => conn.name == name)

/-- `connection.go:174-189` `GetDefaultConnection`: the first default, or
the single stored connection when exactly one exists. -/
def GetDefaultConnection (c : Config) : Option Connection :=
  match c.connections.find? (fun conn => conn.isDefault) with
  | some conn => some conn
  | none => if c.connections.length == 1 then c.connections[0]? else none

/-! ## The CLI export path (`cmd/pgmeta/main.go`, `runExport`) -/

/-- The `export` command flags with their `cobra` defaults. -/
structure ExportFlags where
  query : String
  typesList : String
  connection : String
  schemasList : String
  output : String
  onError : String
deriving Repr, DecidableEq

inductive RunOutcome where
  | noObjects
  | saved
deriving Repr, DecidableEq

inductive RunError where
  | invalidOnError (value : String)
  | connectionNotFound (name : String)
  | noDefaultConnection
  | connectFailed
  | invalidType (t : String)
  | queryFailed (e : QueryError)
  | exportFailed (e : ExportError)
deriving Repr, DecidableEq

/-- Go's `strings.Split(s, ",")`, written structurally over the character
list so that concrete runs evaluate inside the kernel (the CLI only ever
splits on a comma). -/
def splitCommaChars : List Char → List (List Char)
  | [] => [[]]
  | c :: cs =>
    match splitCommaChars cs with
    | [] => [[]]
    | r :: rs => if c = ',' then [] :: r :: rs else (c :: r) :: rs

def splitComma (s : String) : List String :=
  (splitCommaChars s.data).map (fun cs => ⟨cs⟩)

/-- Go's `strings.TrimSpace`, written structurally over the character list
so that concrete runs evaluate inside the kernel. -/
def trimSpace (s : String) : String :=
  ⟨(((s.data.dropWhile Char.isWhitespace).reverse).dropWhile Char.isWhitespace).reverse⟩

/-- The `--types` parsing of `runExport` (`main.go:233-247`): `ALL` means
the empty list (all types); otherwise split on commas, trim, and reject the
first invalid type. -/
def parseTypes (typesList : String) : Except String (List String) :=
  if typesList == "ALL" then .ok []
  else
    let parts := (splitComma typesList).map (fun t => trimSpace t)
    match parts.find? (fun t => !(IsValidType t)) with
    | some t => .error t
    | none => .ok parts

/-- `Fetcher.SaveObjects(objects, outputDir, continueOnError)`.  Modelled
from the spec: the three-argument body is missing from the provided sources
(only the older two-argument `fetcher.go` versions are present); following
the facade contract of the spec (invoke the Exporter on the descriptors,
passing the same policy) and the in-source two-argument version, it builds
the default Exporter (file-write budget 50) and calls `ExportObjects`. -/
def SaveObjects (db : DbOracle) (objects : List DBObject) (outputDir : String)
    (continueOnError : Bool) : ExportRun :=
  ExportObjects db outputDir 50 objects continueOnError

/-- `main.go:184-301` `runExport`: validate `--on-error`, create the output
directory, resolve the connection (named, else default), connect, parse the
type list, translate the `ALL` query sentinel to `.*`, resolve the schema
list (`ALL` via `GetAllSchemas`, otherwise comma-split and trim), discover,
return the no-objects result on an empty discovery, and otherwise save.
The first component collects the filesystem operations of the run (the
config loader's own `~/.pgmeta` handling is outside the engine and not
traced). -/
def runExport (re : RegexEngine) (cat : Catalog) (db : DbOracle) (cfg : Config)
    (connectOk : Bool) (flags : ExportFlags) : List FsOp × Except RunError RunOutcome :=
  if !(flags.onError == "fail" || flags.onError == "warn") then
    ([], .error (.invalidOnError flags.onError))
  else
    let ops0 : List FsOp := [.mkdirAll flags.output]
    let conn? := if flags.connection != "" then GetConnection cfg flags.connection
                 else GetDefaultConnection cfg
    match conn? with
    | none => (ops0, .error (if flags.connection != "" then
        .connectionNotFound flags.connection else .noDefaultConnection))
    | some _ =>
      if !connectOk then (ops0, .error .connectFailed)
      else
        match parseTypes flags.typesList with
        | .error t => (ops0, .error (.invalidType t))
        | .ok objectTypes =>
          let nameRegex := if flags.query == "ALL" then ".*" else flags.query
          let schemas := if flags.schemasList == "ALL" then GetAllSchemas cat
                         else (splitComma flags.schemasList).map (fun s => trimSpace s)
          match QueryObjects re cat ⟨objectTypes, schemas, nameRegex⟩ with
          | .error e => (ops0, .error (.queryFailed e))
          | .ok objects =>
            if objects.isEmpty then (ops0, .ok .noObjects)
            else
              let run := SaveObjects db objects flags.output (flags.onError == "warn")
              match run.err with
              | some e => (ops0 ++ run.ops, .error (.exportFailed e))
              | none => (ops0 ++ run.ops, .ok .saved)

/-! ### Sorting facts for `GetAllSchemas` -/

theorem mem_insertAsc (x a : String) (l : List String) :
    a ∈ insertAsc x l ↔ a = x ∨ a ∈ l := by
  induction l with
  | nil => simp [insertAsc]
  | cons y ys ih =>
    unfold insertAsc
    by_cases h : x ≤ y
    · simp [h]
    · rw [if_neg h]
      simp only [List.mem_cons, ih]
      tauto

theorem sorted_insertAsc (x : String) (l : List String) (h : l.Sorted (· ≤ ·)) :
    (insertAsc x l).Sorted (· ≤ ·) := by
  induction l with
  | nil => simp [insertAsc]
  | cons y ys ih =>
    rw [List.sorted_cons] at h
    unfold insertAsc
    by_cases hxy : x ≤ y
    · rw [if_pos hxy, List.sorted_cons]
      constructor
      · intro b hb
        rcases List.mem_cons.mp hb with rfl | hb
        · exact hxy
        · exact le_trans hxy (h.1 b hb)
      · rw [List.sorted_cons]
        exact h
    · rw [if_neg hxy, List.sorted_cons]
      refine ⟨?_, ih h.2⟩
      intro b hb
      rcases (mem_insertAsc x b ys).mp hb with rfl | hb
      · exact le_of_not_le hxy
      · exact h.1 b hb

theorem sorted_sortAsc (l : List String) : (sortAsc l).Sorted (· ≤ ·) := by
  induction l with
  | nil => simp [sortAsc]
  | cons x xs ih => exact sorted_insertAsc x _ ih

theorem mem_sortAsc (a : String) (l : List String) : a ∈ sortAsc l ↔ a ∈ l := by
  induction l with
  | nil => simp [sortAsc]
  | cons x xs ih => simp [sortAsc, mem_insertAsc, ih]

/-! ### Claim theorems about the Planner's schema handling -/

/-- **C7.** (i) An empty schema list is replaced by `["public"]`.
(ii) Every requested schema is checked for existence up front: if the
effective list names a schema absent from the catalog, `QueryObjects`
returns the schema-not-found error for the first such schema, and none of
the per-type discovery results enter the outcome.  (iii) The `ALL` sentinel
resolves (before any discovery query) to the ascending-sorted list of all
schemas except those matching `pg_%` and `information_schema`.  (iv) The
discovery error is fatal at the CLI level for both error policies: whenever
`QueryObjects` fails, `runExport` returns that error no matter whether
`--on-error` is `fail` or `warn`. -/
theorem planner_schema_preprocessing :
    (∀ (re : RegexEngine) (cat : Catalog) (opts : QueryOptions), opts.schemas = [] →
      QueryObjects re cat opts = QueryObjects re cat { opts with schemas := ["public"] }) ∧
    (∀ (re : RegexEngine) (cat : Catalog) (opts : QueryOptions) (m : String → Bool)
        (s0 : String),
      re.compile opts.nameRegex = some m →
      ((if opts.schemas.isEmpty then ["public"] else opts.schemas).find?
        (fun s => !(cat.schemata.contains s))) = some s0 →
      QueryObjects re cat opts = .error (.schemaNotFound s0)) ∧
    (∀ cat : Catalog, List.Sorted (fun a b : String => a ≤ b) (GetAllSchemas cat) ∧
      ∀ s, (s ∈ GetAllSchemas cat ↔
        s ∈ cat.schemata ∧ likePgPattern s = false ∧ s ≠ "information_schema")) ∧
    (∀ (re : RegexEngine) (cat : Catalog) (db : DbOracle) (cfg : Config)
        (flags : ExportFlags) (ts : List String) (e : QueryError),
      (flags.onError = "fail" ∨ flags.onError = "warn") →
      (if flags.connection != "" then GetConnection cfg flags.connection
        else GetDefaultConnection cfg).isSome = true →
      parseTypes flags.typesList = .ok ts →
      QueryObjects re cat ⟨ts,
        (if flags.schemasList == "ALL" then GetAllSchemas cat
          else (splitComma flags.schemasList).map (fun s => trimSpace s)),
        (if flags.query == "ALL" then ".*" else flags.query)⟩ = .error e →
      (runExport re cat db cfg true flags).2 = .error (.queryFailed e)) := by
  refine ⟨?_, ?_, ?_, ?_⟩
  · intro re cat opts h
    simp [QueryObjects, h]
  · intro re cat opts m s0 hcompile hfind
    simp only [QueryObjects, hcompile]
    rw [hfind]
  · intro cat
    refine ⟨sorted_sortAsc _, ?_⟩
    intro s
    unfold GetAllSchemas
    rw [mem_sortAsc, List.mem_filter]
    simp [Bool.and_eq_true]
  · intro re cat db cfg flags ts e hpolicy hconn hts hquery
    unfold runExport
    have hvalid : (flags.onError == "fail" || flags.onError == "warn") = true := by
      rcases hpolicy with h | h <;> simp [h]
    rw [hvalid]
    rcases Option.isSome_iff_exists.mp hconn with ⟨conn, hc⟩
    rw [hc]
    simp only [Bool.not_true, Bool.false_eq_true, if_false, hts, hquery]

/-- An engine whose compiled matcher accepts every name (enough for the
claims, which do not depend on the regex semantics). -/
def reMatchAll : RegexEngine := ⟨fun _ => some (fun _ => true)⟩

/-- A catalog with one schema and no objects at all. -/
def emptyCatalog : Catalog where
  schemata := ["public"]
  tablesAndViews := fun _ => []
  functions := fun _ => []
  aggregates := fun _ => []
  triggers := fun _ => []
  indexes := fun _ => []
  constraints := fun _ => []
  sequences := fun _ => []
  materializedViews := fun _ => []
  policies := fun _ => []
  extensions := fun _ => []
  procedures := fun _ => []
  rules := fun _ => []
  publications := []
  subscriptions := []

/-- A configuration with a single default connection. -/
def cfgOne : Config := ⟨[⟨"local", "postgres://localhost/db", true⟩]⟩

/-- The `export` flag defaults from `main.go:94-99`. -/
def defaultFlags : ExportFlags :=
  ⟨"ALL", "ALL", "", "public", "./pgmeta-output", "warn"⟩

/-- Witness for `planner_schema_preprocessing` at concrete inputs: the
empty schema list behaves like `["public"]`, a request for the missing
schema `missing` fails with schema-not-found, `GetAllSchemas` of the
one-schema catalog is sorted, and the CLI propagates the schema-not-found
error under the `fail` policy. -/
theorem planner_schema_preprocessing_witness :
    QueryObjects reMatchAll emptyCatalog ⟨[], [], ".*"⟩ =
      QueryObjects reMatchAll emptyCatalog ⟨[], ["public"], ".*"⟩ ∧
    QueryObjects reMatchAll emptyCatalog ⟨[], ["missing"], ".*"⟩ =
      .error (.schemaNotFound "missing") ∧
    List.Sorted (fun a b : String => a ≤ b) (GetAllSchemas emptyCatalog) ∧
    (runExport reMatchAll emptyCatalog dbNoRows cfgOne true
      ⟨"ALL", "ALL", "", "missing", "./pgmeta-output", "fail"⟩).2 =
      .error (.queryFailed (.schemaNotFound "missing")) := by
  obtain ⟨h1, h2, h3, h4⟩ := planner_schema_preprocessing
  refine ⟨h1 reMatchAll emptyCatalog ⟨[], [], ".*"⟩ rfl, ?_, (h3 emptyCatalog).1, ?_⟩
  · exact h2 reMatchAll emptyCatalog ⟨[], ["missing"], ".*"⟩ (fun _ => true) "missing"
      rfl (by decide)
  · exact h4 reMatchAll emptyCatalog dbNoRows cfgOne
      ⟨"ALL", "ALL", "", "missing", "./pgmeta-output", "fail"⟩ [] (.schemaNotFound "missing")
      (Or.inl rfl) (by decide) rfl (by decide)

/-! ### Claim theorems about the CLI run -/

/-- **C9 (counterexample).** An export invocation whose discovery returns no
descriptors: the call returns the no-objects-found result, but the run has
already created the output directory — `runExport` issues `os.MkdirAll` on
`--output` before discovery, so "no file or directory is created by the
run" is false on the code. -/
theorem runExport_empty_discovery_creates_output_dir :
    (runExport reMatchAll emptyCatalog dbNoRows cfgOne true defaultFlags).2 =
      .ok .noObjects ∧
    (runExport reMatchAll emptyCatalog dbNoRows cfgOne true defaultFlags).1 =
      [FsOp.mkdirAll "./pgmeta-output"] := by
  decide

/-- **C9 (amended).** Whenever an export invocation returns the
no-objects-found result (exactly the empty-discovery case), the run writes
no file: its only filesystem operation is the unconditional creation of the
output directory performed before discovery. -/
theorem runExport_empty_discovery_no_files (re : RegexEngine) (cat : Catalog)
    (db : DbOracle) (cfg : Config) (connectOk : Bool) (flags : ExportFlags)
    (h : (runExport re cat db cfg connectOk flags).2 = .ok .noObjects) :
    (runExport re cat db cfg connectOk flags).1 = [FsOp.mkdirAll flags.output] := by
  rcases hr : runExport re cat db cfg connectOk flags with ⟨ops, res⟩
  rw [hr] at h
  simp only at h
  subst h
  unfold runExport at hr
  simp only at hr
  split at hr
  · have h2 := congrArg Prod.snd hr
    simp at h2
  · split at hr
    · have h2 := congrArg Prod.snd hr
      simp at h2
    · split at hr
      · have h2 := congrArg Prod.snd hr
        simp at h2
      · split at hr
        · have h2 := congrArg Prod.snd hr
          simp at h2
        · split at hr
          · have h2 := congrArg Prod.snd hr
            simp at h2
          · split at hr
            · have h1 := congrArg Prod.fst hr
              simp at h1
              exact h1.symm
            · split at hr
              · have h2 := congrArg Prod.snd hr
                simp at h2
              · have h2 := congrArg Prod.snd hr
                simp at h2

/-- Witness for `runExport_empty_discovery_no_files`: the empty-catalog run
whose hypothesis and conclusion are both evaluated concretely. -/
theorem runExport_empty_discovery_no_files_witness :
    (runExport reMatchAll emptyCatalog dbNoRows cfgOne true defaultFlags).1 =
      [FsOp.mkdirAll "./pgmeta-output"] :=
  runExport_empty_discovery_no_files reMatchAll emptyCatalog dbNoRows cfgOne true
    defaultFlags (by decide)

/-! ### Claim C6: duplicate keys out of discovery -/

/-- The identification key `(type, schema, name)` of a descriptor. -/
def keyOf (o : DBObject) : String × String × String := (o.type, o.schema, o.name)

/-- "No two descriptors share `(type, schema, name)`". -/
def KeyPairwiseDistinct (l : List DBObject) : Prop :=
  l.Pairwise (fun a b => keyOf a ≠ keyOf b)

/-- A catalog with one schema holding a single table. -/
def catOneTable : Catalog where
  schemata := ["public"]
  tablesAndViews := fun s => if s == "public" then [⟨"table", "public", "users"⟩] else []
  functions := fun _ => []
  aggregates := fun _ => []
  triggers := fun _ => []
  indexes := fun _ => []
  constraints := fun _ => []
  sequences := fun _ => []
  materializedViews := fun _ => []
  policies := fun _ => []
  extensions := fun _ => []
  procedures := fun _ => []
  rules := fun _ => []
  publications := []
  subscriptions := []

/-- **C6 (counterexample).** `QueryObjects` performs no deduplication: a
request whose schema list repeats `public` returns the same table
descriptor twice, so the discovered list does contain two descriptors with
the same `(type, schema, name)`. -/
theorem planner_no_dedup_counterexample :
    QueryObjects reMatchAll catOneTable ⟨["table"], ["public", "public"], ".*"⟩ =
      .ok [⟨"table", "public", "users", "", ""⟩, ⟨"table", "public", "users", "", ""⟩] ∧
    ¬ KeyPairwiseDistinct
      [⟨"table", "public", "users", "", ""⟩, ⟨"table", "public", "users", "", ""⟩] := by
  constructor
  · decide
  · intro hp
    unfold KeyPairwiseDistinct at hp
    exact (List.pairwise_cons.mp hp).1 _ (by simp) rfl

/-- Well-formedness the discovery SQL guarantees for the catalog's answers:
every row of a per-schema query carries the queried schema and the query's
type literal (`tablesAndViews` yields `table` or `view` through its CASE
expression; publications and subscriptions use the synthetic schema
`postgres`), and within one query's answer no two rows share
`(type, name)`. -/
structure CatalogWF (cat : Catalog) : Prop where
  tv_fields : ∀ s, ∀ r ∈ cat.tablesAndViews s,
    r.schema = s ∧ (r.typeStr = "table" ∨ r.typeStr = "view")
  fn_fields : ∀ s, ∀ r ∈ cat.functions s, r.schema = s ∧ r.typeStr = "function"
  ag_fields : ∀ s, ∀ r ∈ cat.aggregates s, r.schema = s ∧ r.typeStr = "aggregate"
  tr_fields : ∀ s, ∀ r ∈ cat.triggers s, r.schema = s ∧ r.typeStr = "trigger"
  ix_fields : ∀ s, ∀ r ∈ cat.indexes s, r.schema = s ∧ r.typeStr = "index"
  co_fields : ∀ s, ∀ r ∈ cat.constraints s, r.schema = s ∧ r.typeStr = "constraint"
  sq_fields : ∀ s, ∀ r ∈ cat.sequences s, r.schema = s ∧ r.typeStr = "sequence"
  mv_fields : ∀ s, ∀ r ∈ cat.materializedViews s,
    r.schema = s ∧ r.typeStr = "materialized_view"
  po_fields : ∀ s, ∀ r ∈ cat.policies s, r.schema = s ∧ r.typeStr = "policy"
  ex_fields : ∀ s, ∀ r ∈ cat.extensions s, r.schema = s ∧ r.typeStr = "extension"
  pr_fields : ∀ s, ∀ r ∈ cat.procedures s, r.schema = s ∧ r.typeStr = "procedure"
  ru_fields : ∀ s, ∀ r ∈ cat.rules s, r.schema = s ∧ r.typeStr = "rule"
  pub_fields : ∀ r ∈ cat.publications, r.schema = "postgres" ∧ r.typeStr = "publication"
  sub_fields : ∀ r ∈ cat.subscriptions, r.schema = "postgres" ∧ r.typeStr = "subscription"
  tv_keys : ∀ s, ((cat.tablesAndViews s).map (fun r => (r.typeStr, r.name))).Nodup
  fn_keys : ∀ s, ((cat.functions s).map (fun r => (r.typeStr, r.name))).Nodup
  ag_keys : ∀ s, ((cat.aggregates s).map (fun r => (r.typeStr, r.name))).Nodup
  tr_keys : ∀ s, ((cat.triggers s).map (fun r => (r.typeStr, r.name))).Nodup
  ix_keys : ∀ s, ((cat.indexes s).map (fun r => (r.typeStr, r.name))).Nodup
  co_keys : ∀ s, ((cat.constraints s).map (fun r => (r.typeStr, r.name))).Nodup
  sq_keys : ∀ s, ((cat.sequences s).map (fun r => (r.typeStr, r.name))).Nodup
  mv_keys : ∀ s, ((cat.materializedViews s).map (fun r => (r.typeStr, r.name))).Nodup
  po_keys : ∀ s, ((cat.policies s).map (fun r => (r.typeStr, r.name))).Nodup
  ex_keys : ∀ s, ((cat.extensions s).map (fun r => (r.typeStr, r.name))).Nodup
  pr_keys : ∀ s, ((cat.procedures s).map (fun r => (r.typeStr, r.name))).Nodup
  ru_keys : ∀ s, ((cat.rules s).map (fun r => (r.typeStr, r.name))).Nodup
  pub_keys : (cat.publications.map (fun r => (r.typeStr, r.name))).Nodup
  sub_keys : (cat.subscriptions.map (fun r => (r.typeStr, r.name))).Nodup

/-- One query bucket has pairwise distinct keys as soon as its rows have
pairwise distinct `(type, name)` pairs. -/
theorem keyPairwise_bucket {ρ : Type _} (rows : List ρ) (conv : ρ → DBObject)
    (m : String → Bool)
    (hnd : (rows.map (fun r => ((conv r).type, (conv r).name))).Nodup) :
    KeyPairwiseDistinct ((rows.map conv).filter (fun o => m o.name)) := by
  have h3 : (rows.map (fun r => keyOf (conv r))).Nodup := by
    apply List.Nodup.of_map (fun k : String × String × String => (k.1, k.2.2))
    rw [List.map_map]
    exact hnd
  have h2 : rows.Pairwise (fun a b => keyOf (conv a) ≠ keyOf (conv b)) :=
    List.pairwise_map.mp h3
  have h1 : List.Pairwise (fun a b => keyOf a ≠ keyOf b) (rows.map conv) :=
    List.pairwise_map.mpr h2
  exact h1.sublist (List.filter_sublist (rows.map conv))

theorem type_mem_bucket {ρ : Type _} (rows : List ρ) (conv : ρ → DBObject)
    (m : String → Bool) (Ts : List String)
    (hty : ∀ r ∈ rows, (conv r).type ∈ Ts) :
    ∀ o ∈ (rows.map conv).filter (fun o => m o.name), o.type ∈ Ts := by
  intro o ho
  rcases List.mem_map.mp (List.mem_of_mem_filter ho) with ⟨r, hr, he⟩
  exact he ▸ hty r hr

theorem schema_mem_bucket {ρ : Type _} (rows : List ρ) (conv : ρ → DBObject)
    (m : String → Bool) (s : String)
    (hsch : ∀ r ∈ rows, (conv r).schema = s) :
    ∀ o ∈ (rows.map conv).filter (fun o => m o.name), o.schema = s := by
  intro o ho
  rcases List.mem_map.mp (List.mem_of_mem_filter ho) with ⟨r, hr, he⟩
  exact he ▸ hsch r hr

/-- Key distinctness and type coverage pass through the type-filter guard. -/
theorem bucket_guard (c : Prop) [Decidable c] (B : List DBObject) (Ts : List String)
    (h1 : KeyPairwiseDistinct B) (h2 : ∀ o ∈ B, o.type ∈ Ts) :
    KeyPairwiseDistinct (if c then B else []) ∧
    ∀ o ∈ (if c then B else []), o.type ∈ Ts := by
  split
  · exact ⟨h1, h2⟩
  · exact ⟨List.Pairwise.nil, by simp⟩

/-- Appending two blocks with disjoint type sets keeps keys pairwise
distinct. -/
theorem keyPairwise_append_types (A B : List DBObject) (Ta Tb : List String)
    (hA : KeyPairwiseDistinct A) (hB : KeyPairwiseDistinct B)
    (hta : ∀ o ∈ A, o.type ∈ Ta) (htb : ∀ o ∈ B, o.type ∈ Tb)
    (hdisj : ∀ t ∈ Ta, t ∉ Tb) :
    KeyPairwiseDistinct (A ++ B) ∧ ∀ o ∈ A ++ B, o.type ∈ Ta ++ Tb := by
  constructor
  · unfold KeyPairwiseDistinct at *
    rw [List.pairwise_append]
    refine ⟨hA, hB, ?_⟩
    intro a ha b hb heq
    have h1 : a.type ∈ Ta := hta a ha
    have h2 : b.type ∈ Tb := htb b hb
    have : a.type = b.type := congrArg (fun k => k.1) heq
    exact hdisj a.type h1 (this ▸ h2)
  · intro o ho
    rcases List.mem_append.mp ho with h | h
    · exact List.mem_append.mpr (Or.inl (hta o h))
    · exact List.mem_append.mpr (Or.inr (htb o h))

/-- Concatenating per-schema blocks over a duplicate-free schema list keeps
keys pairwise distinct, since the schema component separates blocks. -/
theorem keyPairwise_flatMap_schemas (ss : List String) (f : String → List DBObject)
    (hnd : ss.Nodup)
    (hs : ∀ s ∈ ss, KeyPairwiseDistinct (f s) ∧ ∀ o ∈ f s, o.schema = s) :
    KeyPairwiseDistinct (ss.flatMap f) := by
  induction ss with
  | nil => exact List.Pairwise.nil
  | cons s ss ih =>
    simp only [List.flatMap_cons]
    unfold KeyPairwiseDistinct at *
    rw [List.pairwise_append]
    refine ⟨(hs s (by simp)).1,
      ih (List.nodup_cons.mp hnd).2 (fun s2 h2 => hs s2 (by simp [h2])), ?_⟩
    intro a ha b hb
    rcases List.mem_flatMap.mp hb with ⟨s2, hs2, hbs2⟩
    have ha2 : a.schema = s := (hs s (by simp)).2 a ha
    have hb2 : b.schema = s2 := (hs s2 (by simp [hs2])).2 b hbs2
    have hne : s ≠ s2 := fun he => (List.nodup_cons.mp hnd).1 (he ▸ hs2)
    intro heq
    apply hne
    have hsch := congrArg (fun k => k.2.1) heq
    simp only [keyOf] at hsch
    rw [← ha2, ← hb2]
    exact hsch

/-- The type literals a per-schema discovery pass can produce, in source
order. -/
def schemaTypeLits : List String :=
  ["table", "view", "function", "trigger", "index", "constraint", "sequence",
   "materialized_view", "policy", "extension", "procedure", "rule", "aggregate"]

theorem mem_of_mem_ite {c : Prop} [Decidable c] {B : List DBObject} {o : DBObject}
    (h : o ∈ (if c then B else [])) : o ∈ B := by
  split at h
  · exact h
  · cases h

/-- Every descriptor a per-schema pass produces carries the queried schema. -/
theorem perSchema_schema (cat : Catalog) (hwf : CatalogWF cat) (types : List String)
    (m : String → Bool) (s : String) :
    ∀ o ∈ perSchemaObjects cat types m s, o.schema = s := by
  intro o ho
  unfold perSchemaObjects at ho
  simp only [List.mem_append] at ho
  rcases ho with ((((((((((h | h) | h) | h) | h) | h) | h) | h) | h) | h) | h) | h
  · exact schema_mem_bucket _ obj3 m s (fun r hr => (hwf.tv_fields s r hr).1) o
      (mem_of_mem_ite h)
  · exact schema_mem_bucket _ obj3 m s (fun r hr => (hwf.fn_fields s r hr).1) o
      (mem_of_mem_ite h)
  · exact schema_mem_bucket _ obj4 m s (fun r hr => (hwf.tr_fields s r hr).1) o
      (mem_of_mem_ite h)
  · exact schema_mem_bucket _ obj4 m s (fun r hr => (hwf.ix_fields s r hr).1) o
      (mem_of_mem_ite h)
  · exact schema_mem_bucket _ obj5 m s (fun r hr => (hwf.co_fields s r hr).1) o
      (mem_of_mem_ite h)
  · exact schema_mem_bucket _ objSeq m s (fun r hr => (hwf.sq_fields s r hr).1) o
      (mem_of_mem_ite h)
  · exact schema_mem_bucket _ obj3 m s (fun r hr => (hwf.mv_fields s r hr).1) o
      (mem_of_mem_ite h)
  · exact schema_mem_bucket _ obj4 m s (fun r hr => (hwf.po_fields s r hr).1) o
      (mem_of_mem_ite h)
  · exact schema_mem_bucket _ obj3 m s (fun r hr => (hwf.ex_fields s r hr).1) o
      (mem_of_mem_ite h)
  · exact schema_mem_bucket _ obj3 m s (fun r hr => (hwf.pr_fields s r hr).1) o
      (mem_of_mem_ite h)
  · exact schema_mem_bucket _ obj4 m s (fun r hr => (hwf.ru_fields s r hr).1) o
      (mem_of_mem_ite h)
  · exact schema_mem_bucket _ obj3 m s (fun r hr => (hwf.ag_fields s r hr).1) o
      (mem_of_mem_ite h)

/-- One per-schema pass yields pairwise distinct keys, and only the
thirteen per-schema type literals. -/
theorem perSchema_keyDistinct (cat : Catalog) (hwf : CatalogWF cat) (types : List String)
    (m : String → Bool) (s : String) :
    KeyPairwiseDistinct (perSchemaObjects cat types m s) ∧
    ∀ o ∈ perSchemaObjects cat types m s, o.type ∈ schemaTypeLits := by
  have b1 := bucket_guard (ContainsAny types ["table", "view"] = true)
    (queryTablesAndViews cat m s) ["table", "view"]
    (keyPairwise_bucket _ obj3 m (hwf.tv_keys s))
    (type_mem_bucket _ obj3 m _ (fun r hr => by
      rcases (hwf.tv_fields s r hr).2 with h | h <;> simp [obj3, h]))
  have b2 := bucket_guard (ContainsAny types ["function"] = true)
    (queryFunctions cat m s) ["function"]
    (keyPairwise_bucket _ obj3 m (hwf.fn_keys s))
    (type_mem_bucket _ obj3 m _ (fun r hr => by simp [obj3, (hwf.fn_fields s r hr).2]))
  have b3 := bucket_guard (ContainsAny types ["trigger"] = true)
    (queryTriggers cat m s) ["trigger"]
    (keyPairwise_bucket _ obj4 m (hwf.tr_keys s))
    (type_mem_bucket _ obj4 m _ (fun r hr => by simp [obj4, (hwf.tr_fields s r hr).2]))
  have b4 := bucket_guard (ContainsAny types ["index"] = true)
    (queryIndexes cat m s) ["index"]
    (keyPairwise_bucket _ obj4 m (hwf.ix_keys s))
    (type_mem_bucket _ obj4 m _ (fun r hr => by simp [obj4, (hwf.ix_fields s r hr).2]))
  have b5 := bucket_guard (ContainsAny types ["constraint"] = true)
    (queryConstraints cat m s) ["constraint"]
    (keyPairwise_bucket _ obj5 m (hwf.co_keys s))
    (type_mem_bucket _ obj5 m _ (fun r hr => by simp [obj5, (hwf.co_fields s r hr).2]))
  have b6 := bucket_guard (ContainsAny types ["sequence"] = true)
    (querySequences cat m s) ["sequence"]
    (keyPairwise_bucket _ objSeq m (hwf.sq_keys s))
    (type_mem_bucket _ objSeq m _ (fun r hr => by simp [objSeq, (hwf.sq_fields s r hr).2]))
  have b7 := bucket_guard (ContainsAny types ["materialized_view"] = true)
    (queryMaterializedViews cat m s) ["materialized_view"]
    (keyPairwise_bucket _ obj3 m (hwf.mv_keys s))
    (type_mem_bucket _ obj3 m _ (fun r hr => by simp [obj3, (hwf.mv_fields s r hr).2]))
  have b8 := bucket_guard (ContainsAny types ["policy"] = true)
    (queryPolicies cat m s) ["policy"]
    (keyPairwise_bucket _ obj4 m (hwf.po_keys s))
    (type_mem_bucket _ obj4 m _ (fun r hr => by simp [obj4, (hwf.po_fields s r hr).2]))
  have b9 := bucket_guard (ContainsAny types ["extension"] = true)
    (queryExtensions cat m s) ["extension"]
    (keyPairwise_bucket _ obj3 m (hwf.ex_keys s))
    (type_mem_bucket _ obj3 m _ (fun r hr => by simp [obj3, (hwf.ex_fields s r hr).2]))
  have b10 := bucket_guard (ContainsAny types ["procedure"] = true)
    (queryProcedures cat m s) ["procedure"]
    (keyPairwise_bucket _ obj3 m (hwf.pr_keys s))
    (type_mem_bucket _ obj3 m _ (fun r hr => by simp [obj3, (hwf.pr_fields s r hr).2]))
  have b11 := bucket_guard (ContainsAny types ["rule"] = true)
    (queryRules cat m s) ["rule"]
    (keyPairwise_bucket _ obj4 m (hwf.ru_keys s))
    (type_mem_bucket _ obj4 m _ (fun r hr => by simp [obj4, (hwf.ru_fields s r hr).2]))
  have b12 := bucket_guard (ContainsAny types ["aggregate"] = true)
    (queryAggregates cat m s) ["aggregate"]
    (keyPairwise_bucket _ obj3 m (hwf.ag_keys s))
    (type_mem_bucket _ obj3 m _ (fun r hr => by simp [obj3, (hwf.ag_fields s r hr).2]))
  have c2 := keyPairwise_append_types _ _ _ _ b1.1 b2.1 b1.2 b2.2 (by decide)
  have c3 := keyPairwise_append_types _ _ _ _ c2.1 b3.1 c2.2 b3.2 (by decide)
  have c4 := keyPairwise_append_types _ _ _ _ c3.1 b4.1 c3.2 b4.2 (by decide)
  have c5 := keyPairwise_append_types _ _ _ _ c4.1 b5.1 c4.2 b5.2 (by decide)
  have c6 := keyPairwise_append_types _ _ _ _ c5.1 b6.1 c5.2 b6.2 (by decide)
  have c7 := keyPairwise_append_types _ _ _ _ c6.1 b7.1 c6.2 b7.2 (by decide)
  have c8 := keyPairwise_append_types _ _ _ _ c7.1 b8.1 c7.2 b8.2 (by decide)
  have c9 := keyPairwise_append_types _ _ _ _ c8.1 b9.1 c8.2 b9.2 (by decide)
  have c10 := keyPairwise_append_types _ _ _ _ c9.1 b10.1 c9.2 b10.2 (by decide)
  have c11 := keyPairwise_append_types _ _ _ _ c10.1 b11.1 c10.2 b11.2 (by decide)
  have c12 := keyPairwise_append_types _ _ _ _ c11.1 b12.1 c11.2 b12.2 (by decide)
  exact ⟨c12.1, c12.2⟩

/-- **C6 (amended).** The Planner performs no deduplication (see the
counterexample: repeating a schema repeats its descriptors).  Under the
conditions the discovery SQL does guarantee — a well-formed catalog and a
duplicate-free effective schema list — the discovered descriptor list
contains no two descriptors with the same `(type, schema, name)`: per-type
queries are separated by their type literals, per-schema passes by the
schema component, and the database-level publication and subscription
queries by their own type literals. -/
theorem planner_keys_distinct_when_schemas_nodup (re : RegexEngine) (cat : Catalog)
    (opts : QueryOptions) (objects : List DBObject)
    (hwf : CatalogWF cat)
    (hnd : (if opts.schemas.isEmpty then ["public"] else opts.schemas).Nodup)
    (hok : QueryObjects re cat opts = .ok objects) :
    KeyPairwiseDistinct objects := by
  unfold QueryObjects at hok
  rcases hcomp : re.compile opts.nameRegex with _ | m
  · rw [hcomp] at hok
    cases hok
  · rw [hcomp] at hok
    rcases hfind : ((if opts.schemas.isEmpty then ["public"] else opts.schemas).find?
        (fun s => !(cat.schemata.contains s))) with _ | s
    · rw [hfind] at hok
      injection hok with hobj
      subst hobj
      have hflatKey : KeyPairwiseDistinct
          ((if opts.schemas.isEmpty then ["public"] else opts.schemas).flatMap
            (perSchemaObjects cat opts.types m)) :=
        keyPairwise_flatMap_schemas _ _ hnd (fun s2 _ =>
          ⟨(perSchema_keyDistinct cat hwf opts.types m s2).1,
            perSchema_schema cat hwf opts.types m s2⟩)
      have hflatTy : ∀ o ∈ (if opts.schemas.isEmpty then ["public"] else opts.schemas).flatMap
          (perSchemaObjects cat opts.types m), o.type ∈ schemaTypeLits := by
        intro o ho
        rcases List.mem_flatMap.mp ho with ⟨s2, _, hmem⟩
        exact (perSchema_keyDistinct cat hwf opts.types m s2).2 o hmem
      have hpub := bucket_guard (ContainsAny opts.types ["publication"] = true)
        (queryPublications cat m) ["publication"]
        (keyPairwise_bucket _ obj3 m hwf.pub_keys)
        (type_mem_bucket _ obj3 m _ (fun r hr => by simp [obj3, (hwf.pub_fields r hr).2]))
      have hsub := bucket_guard (ContainsAny opts.types ["subscription"] = true)
        (querySubscriptions cat m) ["subscription"]
        (keyPairwise_bucket _ obj3 m hwf.sub_keys)
        (type_mem_bucket _ obj3 m _ (fun r hr => by simp [obj3, (hwf.sub_fields r hr).2]))
      have d1 := keyPairwise_append_types _ _ schemaTypeLits ["publication"]
        hflatKey hpub.1 hflatTy hpub.2 (by decide)
      have d2 := keyPairwise_append_types _ _ _ ["subscription"]
        d1.1 hsub.1 d1.2 hsub.2 (by decide)
      exact d2.1
    · rw [hfind] at hok
      cases hok

/-- The single-table catalog satisfies the discovery well-formedness. -/
theorem catOneTable_wf : CatalogWF catOneTable := by
  constructor
  case tv_fields =>
    intro s r hr
    simp only [catOneTable] at hr
    split at hr
    case isTrue hcond =>
      have hs : s = "public" := by simpa using hcond
      simp only [List.mem_singleton] at hr
      subst hr
      subst hs
      exact ⟨rfl, Or.inl rfl⟩
    case isFalse => cases hr
  case fn_fields => intro s r hr; simp [catOneTable] at hr
  case ag_fields => intro s r hr; simp [catOneTable] at hr
  case tr_fields => intro s r hr; simp [catOneTable] at hr
  case ix_fields => intro s r hr; simp [catOneTable] at hr
  case co_fields => intro s r hr; simp [catOneTable] at hr
  case sq_fields => intro s r hr; simp [catOneTable] at hr
  case mv_fields => intro s r hr; simp [catOneTable] at hr
  case po_fields => intro s r hr; simp [catOneTable] at hr
  case ex_fields => intro s r hr; simp [catOneTable] at hr
  case pr_fields => intro s r hr; simp [catOneTable] at hr
  case ru_fields => intro s r hr; simp [catOneTable] at hr
  case pub_fields => intro r hr; simp [catOneTable] at hr
  case sub_fields => intro r hr; simp [catOneTable] at hr
  case tv_keys =>
    intro s
    simp only [catOneTable]
    split <;> simp
  case fn_keys => intro s; simp [catOneTable]
  case ag_keys => intro s; simp [catOneTable]
  case tr_keys => intro s; simp [catOneTable]
  case ix_keys => intro s; simp [catOneTable]
  case co_keys => intro s; simp [catOneTable]
  case sq_keys => intro s; simp [catOneTable]
  case mv_keys => intro s; simp [catOneTable]
  case po_keys => intro s; simp [catOneTable]
  case ex_keys => intro s; simp [catOneTable]
  case pr_keys => intro s; simp [catOneTable]
  case ru_keys => intro s; simp [catOneTable]
  case pub_keys => simp [catOneTable]
  case sub_keys => simp [catOneTable]

/-- Witness for `planner_keys_distinct_when_schemas_nodup`: the well-formed
single-table catalog queried once over `public` yields a key-distinct
descriptor list. -/
theorem planner_keys_distinct_when_schemas_nodup_witness :
    KeyPairwiseDistinct [⟨"table", "public", "users", "", ""⟩] :=
  planner_keys_distinct_when_schemas_nodup reMatchAll catOneTable
    ⟨["table"], ["public"], ".*"⟩ [⟨"table", "public", "users", "", ""⟩]
    catOneTable_wf (by decide) (by decide)

/-! ### Claim C8: identifier quoting -/

/-- `p` is a leading segment of `s` (character lists). -/
def leadingMatch : List Char → List Char → Bool
  | [], _ => true
  | _ :: _, [] => false
  | p :: ps, c :: cs => p == c && leadingMatch ps cs

/-- Go's `strings.HasPrefix`. -/
def strStartsWith (s p : String) : Bool := leadingMatch p.data s.data

/-- Go's `strings.HasSuffix`. -/
def strEndsWith (s p : String) : Bool := leadingMatch p.data.reverse s.data.reverse

/-- `db.go:1134-1158` `quoteIdentifierIfNeeded`: return identifiers that are
already wrapped in double quotes as-is, wrap when any character is
uppercase, otherwise return the identifier bare.  (Go ranges over runes
with `unicode.IsUpper`; `Char.isUpper` coincides on the ASCII identifiers
at issue.) -/
def quoteIdentifierIfNeeded (identifier : String) : String :=
  if strStartsWith identifier "\"" && strEndsWith identifier "\"" then identifier
  else if identifier.data.any Char.isUpper then "\"" ++ identifier ++ "\""
  else identifier

/-- The quoting criterion as the spec words it: quoting is required when the
identifier contains an uppercase character or any byte outside
`[a-z_0-9]`. -/
def requiresQuotingSpec (s : String) : Bool :=
  s.data.any (fun c => c.isUpper ||
    !(('a' ≤ c && c ≤ 'z') || ('0' ≤ c && c ≤ '9') || c = '_'))

/-- **C8 (counterexample).** `my table` contains a space — a byte outside
`[a-z_0-9]`, so the spec's criterion demands quotes — yet
`quoteIdentifierIfNeeded` returns it bare: the function only tests for
uppercase characters. -/
theorem quoting_space_left_bare :
    requiresQuotingSpec "my table" = true ∧
    quoteIdentifierIfNeeded "my table" = "my table" := by
  decide

/-- **C8 (amended).** For identifiers not already wrapped in double quotes,
the repository's quoting helper quotes exactly when an uppercase character
is present; identifiers left bare contain no uppercase character (but may
contain other bytes outside `[a-z_0-9]`, which stay unquoted). -/
theorem quoteIdentifier_upper_iff (id : String)
    (h : (strStartsWith id "\"" && strEndsWith id "\"") = false) :
    (id.data.any Char.isUpper = true →
      quoteIdentifierIfNeeded id = "\"" ++ id ++ "\"") ∧
    (id.data.any Char.isUpper = false →
      quoteIdentifierIfNeeded id = id ∧ ∀ c ∈ id.data, ¬ c.isUpper = true) := by
  unfold quoteIdentifierIfNeeded
  rw [if_neg (by simp [h])]
  constructor
  · intro hu
    rw [if_pos hu]
  · intro hu
    rw [if_neg (by simp [hu])]
    refine ⟨rfl, ?_⟩
    intro c hc
    have := List.any_eq_false.mp hu c hc
    simpa using this

/-- Witness for `quoteIdentifier_upper_iff`: `myTable` gets quoted,
`my_table` stays bare and contains no uppercase. -/
theorem quoteIdentifier_upper_iff_witness :
    quoteIdentifierIfNeeded "myTable" = "\"myTable\"" ∧
    quoteIdentifierIfNeeded "my_table" = "my_table" := by
  have h1 := quoteIdentifier_upper_iff "myTable" (by decide)
  have h2 := quoteIdentifier_upper_iff "my_table" (by decide)
  exact ⟨h1.1 (by decide), (h2.2 (by decide)).1⟩

/-! ### Claim C10: the connection store's default invariant -/

/-- `connection.go:79-171` `AddConnection`.  The URL rewriting
(protocol normalization, password escaping, `pq.ParseURL`, host/sslmode
parameter munging, lines 90-148) lives in the external `lib/pq` and
`net/url` packages; it is abstracted as `normalizeURL` and never affects
the `is_default` flags. -/
def AddConnection (normalizeURL : String → String) (c : Config) (name url : String)
    (makeDefault : Bool) : Config × Option String :=
  if name == "" then (c, some "Connection name cannot be empty")
  else if (GetConnection c name).isSome then
    (c, some ("Connection with name '" ++ name ++ "' already exists"))
  else
    let url2 := normalizeURL url
    let makeDefault2 := if c.connections.isEmpty then true else makeDefault
    let conns := if makeDefault2 then
        c.connections.map (fun cn => { cn with isDefault := false })
      else c.connections
    (⟨conns ++ [⟨name, url2, makeDefault2⟩]⟩, none)

/-- The index of the first connection with the given name — the loop of
`DeleteConnection` (`connection.go:193`). -/
def findConnIdx (name : String) : List Connection → Option Nat
  | [] => none
  | conn :: rest =>
    if conn.name == name then some 0
    else (findConnIdx name rest).map (fun i => i + 1)

/-- `connection.go:192-210` `DeleteConnection`: on deleting the default
connection while others remain, promote the next one (wrapping around),
then remove the connection. -/
def DeleteConnection (c : Config) (name : String) : Config × Option String :=
  match findConnIdx name c.connections with
  | none => (c, some ("Connection not found: " ++ name))
  | some i =>
    let conns := c.connections
    let conn := conns.getD i ⟨"", "", false⟩
    let conns2 := if conn.isDefault && decide (1 < conns.length) then
        conns.set ((i + 1) % conns.length)
          { conns.getD ((i + 1) % conns.length) ⟨"", "", false⟩ with isDefault := true }
      else conns
    (⟨conns2.eraseIdx i⟩, none)

/-- `connection.go:213-230` `SetDefaultConnection`: set the named
connection's flag and clear every other flag; the flags are rewritten even
when the name is not found (the error is returned after the loop). -/
def SetDefaultConnection (c : Config) (name : String) : Config × Option String :=
  let conns := c.connections.map (fun conn =>
    if conn.name == name then { conn with isDefault := true }
    else { conn with isDefault := false })
  if c.connections.any (fun conn => conn.name == name) then (⟨conns⟩, none)
  else (⟨conns⟩, some ("Connection not found: " ++ name))

/-- One CLI connection operation. -/
inductive ConnOp where
  | add (name url : String) (makeDefault : Bool)
  | del (name : String)
  | setDefault (name : String)

/-- The configuration state after one operation (error results leave the
persisted state as the operation left it, per the Go code). -/
def applyOp (normalizeURL : String → String) (c : Config) : ConnOp → Config
  | .add n u d => (AddConnection normalizeURL c n u d).1
  | .del n => (DeleteConnection c n).1
  | .setDefault n => (SetDefaultConnection c n).1

def applyOps (normalizeURL : String → String) (c : Config) (ops : List ConnOp) : Config :=
  ops.foldl (applyOp normalizeURL) c

/-- Number of stored connections flagged as default. -/
def defaultCount (c : Config) : Nat :=
  c.connections.countP (fun conn => conn.isDefault)

/-- The invariant the store maintains: unique names and at most one
default. -/
def ConfigInv (c : Config) : Prop :=
  (c.connections.map (fun conn => conn.name)).Nodup ∧ defaultCount c ≤ 1

theorem countP_pos_of_getElem {α : Type} (p : α → Bool) (l : List α) (i : Nat)
    (hi : i < l.length) (hp : p l[i] = true) : 1 ≤ l.countP p := by
  induction l generalizing i with
  | nil => simp at hi
  | cons x xs ih =>
    cases i with
    | zero =>
      have hx : p x = true := by simpa using hp
      rw [List.countP_cons_of_pos p xs hx]
      omega
    | succ j =>
      have := ih j (by simpa using hi) (by simpa using hp)
      rw [List.countP_cons]
      omega

theorem countP_ge_two {α : Type} (p : α → Bool) (l : List α) (i j : Nat)
    (hij : i ≠ j) (hi : i < l.length) (hj : j < l.length)
    (pi : p l[i] = true) (pj : p l[j] = true) : 2 ≤ l.countP p := by
  induction l generalizing i j with
  | nil => simp at hi
  | cons x xs ih =>
    cases i with
    | zero =>
      cases j with
      | zero => omega
      | succ j' =>
        have hx : p x = true := by simpa using pi
        have h1 : 1 ≤ xs.countP p :=
          countP_pos_of_getElem p xs j' (by simpa using hj) (by simpa using pj)
        rw [List.countP_cons_of_pos p xs hx]
        omega
    | succ i' =>
      cases j with
      | zero =>
        have hx : p x = true := by simpa using pj
        have h1 : 1 ≤ xs.countP p :=
          countP_pos_of_getElem p xs i' (by simpa using hi) (by simpa using pi)
        rw [List.countP_cons_of_pos p xs hx]
        omega
      | succ j' =>
        have := ih i' j' (by omega) (by simpa using hi) (by simpa using hj)
          (by simpa using pi) (by simpa using pj)
        rw [List.countP_cons]
        omega

theorem countP_set_split {α : Type} (p : α → Bool) (l : List α) (i : Nat) (a : α)
    (hi : i < l.length) :
    (l.set i a).countP p + (if p l[i] then 1 else 0)
      = l.countP p + (if p a then 1 else 0) := by
  induction l generalizing i with
  | nil => simp at hi
  | cons x xs ih =>
    cases i with
    | zero =>
      simp only [List.set, List.countP_cons, List.getElem_cons_zero]
      omega
    | succ j =>
      have := ih j (by simpa using hi)
      simp only [List.set, List.countP_cons, List.getElem_cons_succ]
      omega

theorem countP_eraseIdx_split {α : Type} (p : α → Bool) (l : List α) (i : Nat)
    (hi : i < l.length) :
    (l.eraseIdx i).countP p + (if p l[i] then 1 else 0) = l.countP p := by
  induction l generalizing i with
  | nil => simp at hi
  | cons x xs ih =>
    cases i with
    | zero =>
      simp only [List.eraseIdx, List.countP_cons, List.getElem_cons_zero]
    | succ j =>
      have := ih j (by simpa using hi)
      simp only [List.eraseIdx, List.countP_cons, List.getElem_cons_succ]
      omega

theorem countP_set_incr {α : Type} (p : α → Bool) (l : List α) (i : Nat) (a : α)
    (hi : i < l.length) (hfalse : p l[i] = false) (htrue : p a = true) :
    (l.set i a).countP p = l.countP p + 1 := by
  have h := countP_set_split p l i a hi
  rw [hfalse, htrue] at h
  simpa using h

theorem countP_eraseIdx_decr {α : Type} (p : α → Bool) (l : List α) (i : Nat)
    (hi : i < l.length) (htrue : p l[i] = true) :
    (l.eraseIdx i).countP p + 1 = l.countP p := by
  have h := countP_eraseIdx_split p l i hi
  rw [htrue] at h
  simpa using h

theorem map_set_eq_of_getD {α β : Type} (f : α → β) (l : List α) (i : Nat) (a d : α)
    (h : f a = f (l.getD i d)) : (l.set i a).map f = l.map f := by
  induction l generalizing i with
  | nil => simp
  | cons x xs ih =>
    cases i with
    | zero =>
      simp only [List.getD_cons_zero] at h
      simp [List.set, h]
    | succ j =>
      simp only [List.getD_cons_succ] at h
      simp [List.set, ih j h]

theorem countP_nameEq_le_one (L : List Connection) (n : String)
    (hnd : (L.map (fun c => c.name)).Nodup) :
    L.countP (fun c => c.name == n) ≤ 1 := by
  induction L with
  | nil => simp
  | cons x xs ih =>
    simp only [List.map_cons, List.nodup_cons] at hnd
    by_cases hx : (x.name == n) = true
    · have hxn : x.name = n := by simpa using hx
      have hx0 : xs.countP (fun c => c.name == n) = 0 := by
        apply List.countP_eq_zero.mpr
        intro a ha hpa
        have han : a.name = n := by simpa using hpa
        exact hnd.1 (by
          rw [hxn, ← han]
          exact List.mem_map_of_mem _ ha)
      rw [List.countP_cons_of_pos (fun c => c.name == n) xs hx, hx0]
    · have := ih hnd.2
      rw [List.countP_cons_of_neg (fun c => c.name == n) xs hx]
      exact this

theorem findConnIdx_lt {n : String} :
    ∀ {L : List Connection} {i : Nat}, findConnIdx n L = some i → i < L.length := by
  intro L
  induction L with
  | nil => intro i h; simp [findConnIdx] at h
  | cons x xs ih =>
    intro i h
    simp only [findConnIdx] at h
    split at h
    · cases h
      simp
    · rcases Option.map_eq_some'.mp h with ⟨j, hj, rfl⟩
      have := ih hj
      simp
      omega

theorem findConnIdx_name {n : String} :
    ∀ {L : List Connection} {i : Nat}, findConnIdx n L = some i →
      (L.getD i ⟨"", "", false⟩).name = n := by
  intro L
  induction L with
  | nil => intro i h; simp [findConnIdx] at h
  | cons x xs ih =>
    intro i h
    simp only [findConnIdx] at h
    split at h
    · cases h
      simpa using (by assumption : (x.name == n) = true)
    · rcases Option.map_eq_some'.mp h with ⟨j, hj, rfl⟩
      simpa [List.getD_cons_succ] using ih hj

theorem addConn_inv (f : String → String) (c : Config) (n u : String) (d : Bool)
    (h : ConfigInv c) : ConfigInv (AddConnection f c n u d).1 := by
  by_cases h1 : (n == "") = true
  · simpa [AddConnection, h1] using h
  · by_cases h2 : (GetConnection c n).isSome = true
    · simpa [AddConnection, h1, h2] using h
    · have hnotin : n ∉ c.connections.map (fun conn => conn.name) := by
        intro hmem
        rcases List.mem_map.mp hmem with ⟨a, ha, hname⟩
        have : ∃ x ∈ c.connections, (x.name == n) = true :=
          ⟨a, ha, by simp [hname]⟩
        exact h2 (by
          simpa [GetConnection, List.find?_isSome] using this)
      have hnames : ∀ (L : List Connection),
          (L.map (fun cn => { cn with isDefault := false })).map (fun conn => conn.name)
            = L.map (fun conn => conn.name) := by
        intro L
        rw [List.map_map]
        rfl
      have main : ∀ (b : Bool),
          ConfigInv ⟨(if b then
              c.connections.map (fun cn => { cn with isDefault := false })
            else c.connections) ++ [⟨n, f u, b⟩]⟩ := by
        intro b
        constructor
        · show List.Nodup _
          rw [List.map_append, List.nodup_append]
          refine ⟨?_, by simp, ?_⟩
          · cases b
            · exact h.1
            · rw [if_pos rfl, hnames]
              exact h.1
          · intro a ha hb
            have hbn : a = n := by simpa using hb
            subst hbn
            apply hnotin
            cases b
            · exact ha
            · rw [if_pos rfl, hnames] at ha
              exact ha
        · show List.countP _ _ ≤ 1
          rw [List.countP_append]
          cases b
          · have := h.2
            unfold defaultCount at this
            have hone : List.countP (fun conn => conn.isDefault)
                [(⟨n, f u, false⟩ : Connection)] = 0 := rfl
            rw [if_neg (by simp), hone]
            omega
          · have hz : (c.connections.map
                (fun cn => { cn with isDefault := false })).countP
                  (fun conn => conn.isDefault) = 0 := by
              apply List.countP_eq_zero.mpr
              intro a ha hpa
              rcases List.mem_map.mp ha with ⟨b, _, rfl⟩
              simp at hpa
            have hone : List.countP (fun conn => conn.isDefault)
                [(⟨n, f u, true⟩ : Connection)] = 1 := rfl
            rw [if_pos rfl, hz, hone]
      unfold AddConnection
      rw [if_neg h1, if_neg h2]
      exact main (if c.connections.isEmpty then true else d)

theorem setDefault_inv (c : Config) (n : String) (h : ConfigInv c) :
    ConfigInv (SetDefaultConnection c n).1 := by
  obtain ⟨hnd, hcnt⟩ := h
  have hconns : ((SetDefaultConnection c n).1).connections
      = c.connections.map (fun conn =>
          if conn.name == n then { conn with isDefault := true }
          else { conn with isDefault := false }) := by
    unfold SetDefaultConnection
    split <;> rfl
  constructor
  · rw [hconns, List.map_map]
    have : ((fun conn => conn.name) ∘ (fun conn =>
        if conn.name == n then { conn with isDefault := true }
        else { conn with isDefault := false }))
          = fun conn : Connection => conn.name := by
      funext x
      by_cases hx : (x.name == n) = true <;> simp [Function.comp, hx]
    rwa [this]
  · show List.countP _ _ ≤ 1
    rw [hconns, List.countP_map]
    have : c.connections.countP ((fun conn => conn.isDefault) ∘ (fun conn =>
        if conn.name == n then { conn with isDefault := true }
        else { conn with isDefault := false }))
          = c.connections.countP (fun conn => conn.name == n) := by
      apply List.countP_congr
      intro x _
      by_cases hx : (x.name == n) = true <;> simp [Function.comp, hx]
    rw [this]
    exact countP_nameEq_le_one _ _ hnd

theorem delConn_inv (c : Config) (n : String) (h : ConfigInv c) :
    ConfigInv (DeleteConnection c n).1 := by
  obtain ⟨hnd, hcnt⟩ := h
  unfold DeleteConnection
  rcases hfi : findConnIdx n c.connections with _ | i
  · exact ⟨hnd, hcnt⟩
  · have hlt : i < c.connections.length := findConnIdx_lt hfi
    dsimp only
    have hsub : ∀ (L : List Connection),
        (L.map (fun conn => conn.name)).Nodup →
        L.countP (fun conn => conn.isDefault) ≤ 1 →
        ConfigInv ⟨L.eraseIdx i⟩ := by
      intro L hLnd hLcnt
      refine ⟨?_, ?_⟩
      · exact hLnd.sublist ((List.eraseIdx_sublist L i).map _)
      · show List.countP _ _ ≤ 1
        calc (L.eraseIdx i).countP (fun conn => conn.isDefault)
            ≤ L.countP (fun conn => conn.isDefault) :=
              (List.eraseIdx_sublist L i).countP_le _
          _ ≤ 1 := hLcnt
    split
    · next hdef =>
      have hlen : 1 < c.connections.length := by
        have := (Bool.and_eq_true _ _).mp hdef
        exact of_decide_eq_true this.2
      have hpos : 0 < c.connections.length := by omega
      have hnxlt : (i + 1) % c.connections.length < c.connections.length :=
        Nat.mod_lt _ hpos
      have hne : (i + 1) % c.connections.length ≠ i := by
        rcases Nat.lt_or_ge (i + 1) c.connections.length with hc | hc
        · rw [Nat.mod_eq_of_lt hc]
          omega
        · have hie : i + 1 = c.connections.length := by omega
          rw [hie, Nat.mod_self]
          omega
      have hPi : c.connections[i].isDefault = true := by
        have hand := (Bool.and_eq_true _ _).mp hdef
        rw [List.getD_eq_getElem _ _ hlt] at hand
        exact hand.1
      have hPnx : c.connections[(i + 1) % c.connections.length].isDefault = false := by
        by_contra habs
        have htrue : c.connections[(i + 1) % c.connections.length].isDefault = true := by
          simpa using habs
        have h2 : 2 ≤ c.connections.countP (fun conn => conn.isDefault) :=
          countP_ge_two _ c.connections _ i hne hnxlt hlt htrue hPi
        have := hcnt
        unfold defaultCount at this
        omega
      set nx := (i + 1) % c.connections.length with hnx
      set a : Connection :=
        { c.connections.getD nx ⟨"", "", false⟩ with isDefault := true } with ha
      constructor
      · show List.Nodup _
        have hnm : (c.connections.set nx a).map (fun conn => conn.name)
            = c.connections.map (fun conn => conn.name) :=
          map_set_eq_of_getD (fun conn => conn.name) c.connections nx a
            ⟨"", "", false⟩ (by rw [ha])
        have hnd2 : ((c.connections.set nx a).map (fun conn => conn.name)).Nodup := by
          rw [hnm]
          exact hnd
        exact hnd2.sublist ((List.eraseIdx_sublist _ i).map _)
      · show ((c.connections.set nx a).eraseIdx i).countP
          (fun conn => conn.isDefault) ≤ 1
        have hcs : (c.connections.set nx a).countP (fun conn => conn.isDefault)
            = c.connections.countP (fun conn => conn.isDefault) + 1 :=
          countP_set_incr (fun conn => conn.isDefault) c.connections nx a
            hnxlt hPnx (by rw [ha])
        have hone : c.connections.countP (fun conn => conn.isDefault) = 1 := by
          have hge : 1 ≤ c.connections.countP (fun conn => conn.isDefault) :=
            countP_pos_of_getElem _ c.connections i hlt hPi
          have := hcnt
          unfold defaultCount at this
          omega
        have hilt : i < (c.connections.set nx a).length := by
          rw [List.length_set]
          exact hlt
        have hkeep : (c.connections.set nx a)[i] = c.connections[i] :=
          List.getElem_set_ne hne hilt
        have her : ((c.connections.set nx a).eraseIdx i).countP
              (fun conn => conn.isDefault) + 1
            = (c.connections.set nx a).countP (fun conn => conn.isDefault) :=
          countP_eraseIdx_decr (fun conn => conn.isDefault)
            (c.connections.set nx a) i hilt (by rw [hkeep]; exact hPi)
        rw [hcs, hone] at her
        omega
    · exact hsub c.connections hnd (by
        have := hcnt
        unfold defaultCount at this
        exact this)

/-- **C10.** Across any sequence of `AddConnection`, `SetDefaultConnection`
and `DeleteConnection` operations the configuration keeps unique names and
at most one default connection; starting from an empty configuration every
reachable state has at most one default, and the first connection added to
an empty configuration becomes the default even with `makeDefault = false`. -/
theorem connection_default_invariant :
    (∀ (f : String → String) (c : Config) (ops : List ConnOp),
      ConfigInv c → ConfigInv (applyOps f c ops)) ∧
    (∀ (f : String → String) (ops : List ConnOp),
      defaultCount (applyOps f ⟨[]⟩ ops) ≤ 1) ∧
    (∀ (f : String → String) (n u : String), (n == "") = false →
      ((AddConnection f ⟨[]⟩ n u false).1).connections.map
        (fun conn => conn.isDefault) = [true]) := by
  have hpres : ∀ (f : String → String) (c : Config) (ops : List ConnOp),
      ConfigInv c → ConfigInv (applyOps f c ops) := by
    intro f c ops
    induction ops generalizing c with
    | nil => exact id
    | cons op rest ih =>
      intro hc
      have h1 : ConfigInv (applyOp f c op) := by
        cases op with
        | add n u d => exact addConn_inv f c n u d hc
        | del n => exact delConn_inv c n hc
        | setDefault n => exact setDefault_inv c n hc
      exact ih _ h1
  refine ⟨hpres, ?_, ?_⟩
  · intro f ops
    exact (hpres f ⟨[]⟩ ops ⟨by simp, by simp [defaultCount]⟩).2
  · intro f n u hne
    unfold AddConnection
    rw [if_neg (by simp [hne]), if_neg (by simp [GetConnection])]
    rfl

/-- Witness for `connection_default_invariant`: a concrete four-operation
history keeps the invariant, and the first-added connection is default. -/
theorem connection_default_invariant_witness :
    ConfigInv (applyOps (fun u => u) ⟨[]⟩
      [ConnOp.add "a" "u1" false, ConnOp.add "b" "u2" true,
       ConnOp.setDefault "a", ConnOp.del "a"]) ∧
    ((AddConnection (fun u => u) ⟨[]⟩ "a" "u1" false).1).connections.map
      (fun conn => conn.isDefault) = [true] := by
  obtain ⟨h1, _, h3⟩ := connection_default_invariant
  exact ⟨h1 (fun u => u) ⟨[]⟩ _ ⟨by simp, by simp [defaultCount]⟩,
    h3 (fun u => u) "a" "u1" (by decide)⟩

end Pgmeta
